import Mathlib

/-!
# Altera frame buffer driver (drivers/video/altfb.c)

A shallow embedding of the scatter-gather DMA descriptor ring builder
`altfb_dma_start` and of the attach routine `altfb_probe`.

Machine integers are natural numbers with the wrap written out: the target
(nios2) is a 32-bit machine, so `unsigned long`, `unsigned`, `u32` and
`size_t` all wrap at `2^32`, `u16` at `2^16` and `u8` at `2^8`.

Descriptor memory is addressed by the index of a descriptor relative to the
pointer `descp` handed to `altfb_dma_start`; the index is an integer because
the C code steps the pointer backwards (`desc--`).
-/

namespace Altfb

/-! ## Constants of the source -/

/-- Wrap of `unsigned long` / `u32` / `size_t` on the 32-bit target. -/
def ULONG_MOD : Nat := 2 ^ 32

/-- Wrap of a `u16` field. -/
def U16_MOD : Nat := 2 ^ 16

/-- Wrap of a `u8` field. -/
def U8_MOD : Nat := 2 ^ 8

def ALTERA_SGDMA_IO_EXTENT : Nat := 0x400

def ALTERA_SGDMA_STATUS : Nat := 0
def ALTERA_SGDMA_STATUS_BUSY_MSK : Nat := 0x10

def ALTERA_SGDMA_CONTROL : Nat := 16
def ALTERA_SGDMA_CONTROL_RUN_MSK : Nat := 0x20
def ALTERA_SGDMA_CONTROL_SOFTWARERESET_MSK : Nat := 0x10000
def ALTERA_SGDMA_CONTROL_PARK_MSK : Nat := 0x20000

def ALTERA_SGDMA_NEXT_DESC_POINTER : Nat := 32

/-- SGDMA can only transfer this many bytes per descriptor. -/
def DISPLAY_BYTES_PER_DESC : Nat := 0xFF00
def ALTERA_SGDMA_DESCRIPTOR_CONTROL_GENERATE_EOP_MSK : Nat := 0x1
def ALTERA_SGDMA_DESCRIPTOR_CONTROL_GENERATE_SOP_MSK : Nat := 0x4
def ALTERA_SGDMA_DESCRIPTOR_CONTROL_OWNED_BY_HW_MSK : Nat := 0x80

/-! ## The descriptor record -/

/-- The fields of `struct sgdma_desc`, in declaration order. -/
inductive Field where
  | read_addr
  | read_addr_pad
  | write_addr
  | write_addr_pad
  | next
  | next_pad
  | bytes_to_transfer
  | read_burst
  | write_burst
  | actual_bytes_transferred
  | status
  | control
  deriving DecidableEq, Repr

/-- Size in bytes of each field (`u32` = 4, `u16` = 2, `u8` = 1). -/
def Field.size : Field → Nat
  | .read_addr => 4
  | .read_addr_pad => 4
  | .write_addr => 4
  | .write_addr_pad => 4
  | .next => 4
  | .next_pad => 4
  | .bytes_to_transfer => 2
  | .read_burst => 1
  | .write_burst => 1
  | .actual_bytes_transferred => 2
  | .status => 1
  | .control => 1

/-- All fields of the record, in declaration order. -/
def sgdma_desc_fields : List Field :=
  [.read_addr, .read_addr_pad, .write_addr, .write_addr_pad, .next, .next_pad,
   .bytes_to_transfer, .read_burst, .write_burst, .actual_bytes_transferred,
   .status, .control]

/-- The record is packed, so `sizeof(struct sgdma_desc)` is the sum of the
field sizes. -/
def sizeof_sgdma_desc : Nat := (sgdma_desc_fields.map Field.size).sum

/-- The record `struct sgdma_desc`. -/
structure sgdma_desc where
  read_addr : Nat
  read_addr_pad : Nat
  write_addr : Nat
  write_addr_pad : Nat
  next : Nat
  next_pad : Nat
  bytes_to_transfer : Nat
  read_burst : Nat
  write_burst : Nat
  actual_bytes_transferred : Nat
  status : Nat
  control : Nat
  deriving DecidableEq, Repr

/-- A descriptor whose bytes are all zero. -/
def sgdma_desc.zero : sgdma_desc :=
  ⟨0, 0, 0, 0, 0, 0, 0, 0, 0, 0, 0, 0⟩

/-- The macro `DISPLAY_DESC_COUNT(len)`, evaluated in `unsigned long`. -/
def DISPLAY_DESC_COUNT (len : Nat) : Nat :=
  ((len + DISPLAY_BYTES_PER_DESC - 1) % ULONG_MOD) / DISPLAY_BYTES_PER_DESC

/-- The macro `DISPLAY_DESC_SIZE(len)`, evaluated in `unsigned long`. -/
def DISPLAY_DESC_SIZE (len : Nat) : Nat :=
  (DISPLAY_DESC_COUNT len * sizeof_sgdma_desc) % ULONG_MOD

/-! ## Memory operations and the hardware state -/

/-- One externally visible memory operation of `altfb_dma_start`: a register
write `writel(value, addr)` or a store to a field of the descriptor at index
`idx` (relative to `descp`). -/
inductive Op where
  | writel (value : Nat) (addr : Nat)
  | store (idx : Int) (f : Field) (value : Nat)
  deriving DecidableEq, Repr

/-- Descriptor memory together with the operations performed so far, oldest
first. -/
structure Hw where
  desc : Int → sgdma_desc
  trace : List Op

/-- Write `v` to the field `next` of a descriptor (a `u32`). -/
def sgdma_desc.set_next (d : sgdma_desc) (v : Nat) : sgdma_desc :=
  { d with next := v % ULONG_MOD }

/-- Write `v` to the field `read_addr` of a descriptor (a `u32`). -/
def sgdma_desc.set_read_addr (d : sgdma_desc) (v : Nat) : sgdma_desc :=
  { d with read_addr := v % ULONG_MOD }

/-- Write `v` to the field `bytes_to_transfer` of a descriptor (a `u16`). -/
def sgdma_desc.set_bytes_to_transfer (d : sgdma_desc) (v : Nat) : sgdma_desc :=
  { d with bytes_to_transfer := v % U16_MOD }

/-- Write `v` to the field `control` of a descriptor (a `u8`). -/
def sgdma_desc.set_control (d : sgdma_desc) (v : Nat) : sgdma_desc :=
  { d with control := v % U8_MOD }

/-- The statement `writel(value, addr)`. -/
def Hw.writel (hw : Hw) (value addr : Nat) : Hw :=
  { hw with trace := hw.trace ++ [Op.writel (value % ULONG_MOD) (addr % ULONG_MOD)] }

/-- The statement `desc->read_addr = v` with `desc = descp + idx`. -/
def Hw.store_read_addr (hw : Hw) (idx : Int) (v : Nat) : Hw :=
  { desc := fun j => if j = idx then (hw.desc j).set_read_addr v else hw.desc j
    trace := hw.trace ++ [Op.store idx .read_addr (v % ULONG_MOD)] }

/-- The statement `desc->next = v` with `desc = descp + idx`. -/
def Hw.store_next (hw : Hw) (idx : Int) (v : Nat) : Hw :=
  { desc := fun j => if j = idx then (hw.desc j).set_next v else hw.desc j
    trace := hw.trace ++ [Op.store idx .next (v % ULONG_MOD)] }

/-- The statement `desc->bytes_to_transfer = v` with `desc = descp + idx`. -/
def Hw.store_bytes_to_transfer (hw : Hw) (idx : Int) (v : Nat) : Hw :=
  { desc := fun j => if j = idx then (hw.desc j).set_bytes_to_transfer v else hw.desc j
    trace := hw.trace ++ [Op.store idx .bytes_to_transfer (v % U16_MOD)] }

/-- The statement `desc->control = v` with `desc = descp + idx`. -/
def Hw.store_control (hw : Hw) (idx : Int) (v : Nat) : Hw :=
  { desc := fun j => if j = idx then (hw.desc j).set_control v else hw.desc j
    trace := hw.trace ++ [Op.store idx .control (v % U8_MOD)] }

/-! ## `altfb_dma_start` -/

/-- The local variables of `altfb_dma_start` that the loop changes, together
with the hardware state. -/
structure LoopState where
  start : Nat
  len : Nat
  next_desc_phys : Nat
  desc : Int
  hw : Hw

/-- One pass through the body of `while (len) { ... }`. -/
def dma_loop_body (s : LoopState) : LoopState :=
  let cc := min s.len DISPLAY_BYTES_PER_DESC
  let next_desc_phys := (s.next_desc_phys + sizeof_sgdma_desc) % ULONG_MOD
  let ctrl := ALTERA_SGDMA_DESCRIPTOR_CONTROL_OWNED_BY_HW_MSK
  let hw := s.hw.store_read_addr s.desc s.start
  let hw := hw.store_next s.desc next_desc_phys
  let hw := hw.store_bytes_to_transfer s.desc cc
  let hw := hw.store_control s.desc ctrl
  { start := (s.start + cc) % ULONG_MOD
    len := s.len - cc
    next_desc_phys := next_desc_phys
    desc := s.desc + 1
    hw := hw }

/-- The loop `while (len) { ... }` of `altfb_dma_start`. It terminates
because every pass lowers `len`. -/
def dma_loop (s : LoopState) : LoopState :=
  if h : s.len = 0 then s
  else dma_loop (dma_loop_body s)
termination_by s.len
decreasing_by
  simp only [dma_loop_body, DISPLAY_BYTES_PER_DESC]
  omega

/-- The function `altfb_dma_start(base, start, len, descp)`: the value it
returns and the hardware state it leaves, from the state `hw` it found. -/
def altfb_dma_start (base start len : Nat) (hw : Hw) : Int × Hw :=
  let first_desc_phys := (start + len) % ULONG_MOD
  let next_desc_phys := first_desc_phys
  let ctrl := ALTERA_SGDMA_DESCRIPTOR_CONTROL_OWNED_BY_HW_MSK
  let hw := hw.writel ALTERA_SGDMA_CONTROL_SOFTWARERESET_MSK (base + ALTERA_SGDMA_CONTROL)
  let hw := hw.writel 0 (base + ALTERA_SGDMA_CONTROL)
  let hw := hw.writel 0xff (base + ALTERA_SGDMA_STATUS)
  let hw := hw.writel first_desc_phys (base + ALTERA_SGDMA_NEXT_DESC_POINTER)
  let s := dma_loop ⟨start, len, next_desc_phys, 0, hw⟩
  let desc := s.desc - 1
  let hw := s.hw.store_next desc first_desc_phys
  let hw := hw.store_control desc (ctrl ||| ALTERA_SGDMA_DESCRIPTOR_CONTROL_GENERATE_EOP_MSK)
  let desc : Int := 0
  let hw := hw.store_control desc (ctrl ||| ALTERA_SGDMA_DESCRIPTOR_CONTROL_GENERATE_SOP_MSK)
  let hw := hw.writel (ALTERA_SGDMA_CONTROL_RUN_MSK ||| ALTERA_SGDMA_CONTROL_PARK_MSK)
    (base + ALTERA_SGDMA_CONTROL)
  (0, hw)

/-! ## The frame buffer records and `altfb_probe` -/

/-- The record `struct fb_bitfield`. -/
structure fb_bitfield where
  offset : Nat
  length : Nat
  msb_right : Nat
  deriving DecidableEq, Repr

/-- The fields of `struct fb_var_screeninfo` that the driver sets to values
found in this file (all of them `__u32`). -/
structure fb_var_screeninfo where
  xres : Nat
  yres : Nat
  xres_virtual : Nat
  yres_virtual : Nat
  bits_per_pixel : Nat
  red : fb_bitfield
  green : fb_bitfield
  blue : fb_bitfield
  height : Nat
  width : Nat
  deriving DecidableEq, Repr

/-- The fields of `struct fb_fix_screeninfo` that the driver computes:
`smem_start` is an `unsigned long`, `smem_len` and `line_length` are `__u32`. -/
structure fb_fix_screeninfo where
  smem_start : Nat
  smem_len : Nat
  line_length : Nat
  deriving DecidableEq, Repr

/-- The fields of `struct fb_info` that the probe uses. -/
structure fb_info where
  var : fb_var_screeninfo
  fix : fb_fix_screeninfo
  screen_base : Option Nat
  deriving DecidableEq, Repr

/-- The template `altfb_default`: `.height = -1` and `.width = -1` in `__u32`
fields, everything else zero. -/
def altfb_default : fb_var_screeninfo :=
  { xres := 0, yres := 0, xres_virtual := 0, yres_virtual := 0, bits_per_pixel := 0
    red := ⟨0, 0, 0⟩, green := ⟨0, 0, 0⟩, blue := ⟨0, 0, 0⟩
    height := ULONG_MOD - 1, width := ULONG_MOD - 1 }

/-- The template `altfb_fix`: its initialiser names neither `smem_start`, nor
`smem_len`, nor `line_length`, so they are zero, and nothing ever assigns to
the template. -/
def altfb_fix : fb_fix_screeninfo :=
  { smem_start := 0, smem_len := 0, line_length := 0 }

def ENODEV : Int := 19
def ENOMEM : Int := 12
def EBUSY : Int := 16
def EIO : Int := 5

/-- The memory resource of the platform device: `res->start` and
`resource_size(res)`. -/
structure resource where
  start : Nat
  size : Nat
  deriving DecidableEq, Repr

/-- What the kernel answers to the calls of `altfb_probe`. -/
structure Env where
  /-- Result of `platform_get_resource(pdev, IORESOURCE_MEM, 0)`. -/
  res : Option resource
  /-- Whether `framebuffer_alloc` returned a record. -/
  info_ok : Bool
  /-- Value of the property `width`, if the device node has it. -/
  width : Option Nat
  /-- Value of the property `height`, if the device node has it. -/
  height : Option Nat
  /-- Value of the property `bpp`, if the device node has it. -/
  bpp : Option Nat
  /-- Result of `dma_alloc_coherent`: virtual address and DMA handle. -/
  dma_alloc : Option (Nat × Nat)
  /-- Result of `fb_alloc_cmap`. -/
  cmap_ret : Int
  /-- Whether `request_mem_region` returned a region. -/
  region_ok : Bool
  /-- Result of `ioremap_nocache`. -/
  sgdma_base : Option Nat
  /-- Result of `register_framebuffer`. -/
  register_ret : Int
  /-- Contents of the memory at `desc_virt` as allocated, by descriptor index. -/
  mem : Int → sgdma_desc

/-- A call of `altfb_probe` to the kernel, or a memory operation of
`altfb_dma_start`, in the order they happen. -/
inductive Event where
  | platform_get_resource
  | framebuffer_alloc (size : Nat)
  | of_get_property (name : String)
  | dev_err (what : String)
  | dev_info
  | dma_alloc_coherent (size : Nat)
  | fb_alloc_cmap (len : Nat)
  | platform_set_drvdata
  | request_mem_region (start n : Nat)
  | ioremap_nocache (start n : Nat)
  | dma (op : Op)
  | iounmap (addr : Nat)
  | release_region (start n : Nat)
  | printk
  | altfb_color_bar (xres yres bits_per_pixel : Nat)
  | register_framebuffer
  | fb_dealloc_cmap
  | framebuffer_release
  | dma_free_coherent (size : Nat) (cpu_addr : Option Nat) (handle : Nat)
  deriving DecidableEq, Repr

/-- The outcome of `altfb_probe`: the value returned, the events in order, the
record `info` as it stands on return (if it was allocated), the descriptor
memory, and the pointer `desc_virt` (if the probe got as far as computing
it). -/
structure ProbeResult where
  retval : Int
  events : List Event
  info : Option fb_info
  desc : Int → sgdma_desc
  desc_virt : Option Nat

/-- The code from the label `err:` on. The variable `fbmem_virt` has no value
yet when `framebuffer_alloc` fails. -/
def probe_err (fbmem_virt : Option Nat) : List Event :=
  [Event.dma_free_coherent altfb_fix.smem_len fbmem_virt altfb_fix.smem_start]

/-- The code from the label `err1:` on. -/
def probe_err1 (fbmem_virt : Option Nat) : List Event :=
  Event.framebuffer_release :: probe_err fbmem_virt

/-- The code from the label `err2:` on. -/
def probe_err2 (fbmem_virt : Option Nat) : List Event :=
  Event.fb_dealloc_cmap :: probe_err1 fbmem_virt

/-- The code from the label `err3:` on. -/
def probe_err3 (res : resource) (fbmem_virt : Option Nat) : List Event :=
  Event.release_region res.start res.size :: probe_err2 fbmem_virt

/-- The code from the label `err4:` on. -/
def probe_err4 (sgdma_base : Nat) (res : resource) (fbmem_virt : Option Nat) : List Event :=
  Event.iounmap sgdma_base :: probe_err3 res fbmem_virt

/-- The colour layout `altfb_probe` stores for the resolved `bits_per_pixel`. -/
def probe_set_layout (var : fb_var_screeninfo) : fb_var_screeninfo :=
  if var.bits_per_pixel = 16 then
    { var with red := ⟨11, 5, 0⟩, green := ⟨5, 6, 0⟩, blue := ⟨0, 5, 0⟩ }
  else
    { var with red := ⟨16, 8, 0⟩, green := ⟨8, 8, 0⟩, blue := ⟨0, 8, 0⟩ }

/-- The function `altfb_probe` from the allocation of the surface on: `info`
holds the resolved geometry and `ev` the events so far. The descriptor memory
`env.mem` handed to `altfb_dma_start` is the memory at `desc_virt`. -/
def probe_attach (env : Env) (res : resource) (info : fb_info) (ev : List Event) :
    ProbeResult :=
  let size := (info.fix.smem_len + DISPLAY_DESC_SIZE info.fix.smem_len) % ULONG_MOD
  let ev := ev ++ [Event.dma_alloc_coherent size]
  match env.dma_alloc with
  | none => ⟨-ENOMEM, ev ++ [Event.dev_err "fb memory"], some info, env.mem, none⟩
  | some (fbmem_virt, handle) =>
    let info := { info with fix := { info.fix with smem_start := handle % ULONG_MOD } }
    let info := { info with screen_base := some fbmem_virt }
    let ev := ev ++ [Event.fb_alloc_cmap 256]
    let retval := env.cmap_ret
    if retval < 0 then
      ⟨retval, ev ++ probe_err1 (some fbmem_virt), some info, env.mem, none⟩
    else
      let desc_virt := fbmem_virt
      let desc_virt := (desc_virt + info.fix.smem_len) % ULONG_MOD
      let ev := ev ++ [Event.platform_set_drvdata,
        Event.request_mem_region res.start res.size]
      if env.region_ok = false then
        ⟨-EBUSY, ev ++ Event.dev_err "region" :: probe_err2 (some fbmem_virt), some info,
          env.mem, some desc_virt⟩
      else
        let ev := ev ++ [Event.ioremap_nocache res.start res.size]
        match env.sgdma_base with
        | none =>
          ⟨- EIO, ev ++ probe_err3 res (some fbmem_virt), some info, env.mem, some desc_virt⟩
        | some sgdma_base =>
          let r := altfb_dma_start sgdma_base info.fix.smem_start info.fix.smem_len
            ⟨env.mem, []⟩
          let ev := ev ++ r.2.trace.map Event.dma
          if r.1 ≠ 0 then
            ⟨retval, ev ++ probe_err4 sgdma_base res (some fbmem_virt), some info, r.2.desc,
              some desc_virt⟩
          else
            let ev := ev ++ [Event.iounmap sgdma_base,
              Event.release_region res.start res.size,
              Event.printk,
              Event.altfb_color_bar info.var.xres info.var.yres info.var.bits_per_pixel,
              Event.register_framebuffer]
            let retval := env.register_ret
            if retval < 0 then
              ⟨retval, ev ++ probe_err4 sgdma_base res (some fbmem_virt), some info,
                r.2.desc, some desc_virt⟩
            else
              ⟨0, ev, some info, r.2.desc, some desc_virt⟩

/-- The function `altfb_probe(pdev)`. -/
def altfb_probe (env : Env) : ProbeResult :=
  let ev := [Event.platform_get_resource]
  match env.res with
  | none => ⟨-ENODEV, ev, none, env.mem, none⟩
  | some res =>
    let ev := ev ++ [Event.framebuffer_alloc (4 * 256)]
    if env.info_ok = false then
      ⟨-ENOMEM, ev ++ probe_err none, none, env.mem, none⟩
    else
      let info : fb_info := ⟨altfb_default, ⟨0, 0, 0⟩, none⟩
      let ev := ev ++ [Event.of_get_property "width"]
      match env.width with
      | none => ⟨-ENODEV, ev ++ [Event.dev_err "width"], some info, env.mem, none⟩
      | some width =>
        let info := { info with var := { info.var with xres := width % ULONG_MOD } }
        let info := { info with var := { info.var with xres_virtual := info.var.xres } }
        let ev := ev ++ [Event.of_get_property "height"]
        match env.height with
        | none => ⟨-ENODEV, ev ++ [Event.dev_err "height"], some info, env.mem, none⟩
        | some height =>
          let info := { info with var := { info.var with yres := height % ULONG_MOD } }
          let info := { info with var := { info.var with yres_virtual := info.var.yres } }
          let ev := ev ++ [Event.of_get_property "bpp"]
          match env.bpp with
          | none => ⟨-ENODEV, ev ++ [Event.dev_err "bpp"], some info, env.mem, none⟩
          | some bpp =>
            let info := { info with var := { info.var with bits_per_pixel := bpp % ULONG_MOD } }
            let ev := if info.var.bits_per_pixel = 24 then ev ++ [Event.dev_info] else ev
            let info :=
              if info.var.bits_per_pixel = 24 then
                { info with var := { info.var with bits_per_pixel := 32 } }
              else info
            let info := { info with var := probe_set_layout info.var }
            let info := { info with fix := altfb_fix }
            let info := { info with fix := { info.fix with
              line_length := (info.var.xres * (info.var.bits_per_pixel >>> 3)) % ULONG_MOD } }
            let info := { info with fix := { info.fix with
              smem_len := (info.fix.line_length * info.var.yres) % ULONG_MOD } }
            probe_attach env res info ev

/-- Whether an event touches the DMA engine: claiming or mapping its register
block, or an operation of `altfb_dma_start`. -/
def Event.is_hardware_access : Event → Bool
  | .request_mem_region _ _ => true
  | .ioremap_nocache _ _ => true
  | .dma _ => true
  | _ => false

/-- Whether an event is a request for the surface allocation. -/
def Event.is_surface_alloc : Event → Bool
  | .dma_alloc_coherent _ => true
  | _ => false

/-- The memory operations of `altfb_dma_start` among the events of a probe,
oldest first. -/
def probe_ops (events : List Event) : List Op :=
  events.filterMap fun e =>
    match e with
    | .dma op => some op
    | _ => none

/-- A device node for 640x480 at 16 bpp on which every call succeeds except
`ioremap_nocache`, which returns NULL. -/
def env_ioremap_fails : Env :=
  { res := some ⟨0x4000, 0x400⟩
    info_ok := true
    width := some 640
    height := some 480
    bpp := some 16
    dma_alloc := some (0xC0100000, 0x100000)
    cmap_ret := 0
    region_ok := true
    sgdma_base := none
    register_ret := 0
    mem := fun _ => sgdma_desc.zero }

/-- A device node for 8x1 at the unsupported depth of 12 bpp on which every
call succeeds. -/
def env_bpp_12 : Env :=
  { res := some ⟨0x4000, 0x400⟩
    info_ok := true
    width := some 8
    height := some 1
    bpp := some 12
    dma_alloc := some (0xC0100000, 0x100000)
    cmap_ret := 0
    region_ok := true
    sgdma_base := some 0x80004000
    register_ret := 0
    mem := fun _ => sgdma_desc.zero }

/-- A device node of the given geometry on which every call succeeds. -/
def env_ok (width height bpp : Nat) : Env :=
  { res := some ⟨0x4000, 0x400⟩
    info_ok := true
    width := some width
    height := some height
    bpp := some bpp
    dma_alloc := some (0xC0100000, 0x100000)
    cmap_ret := 0
    region_ok := true
    sgdma_base := some 0x80004000
    register_ret := 0
    mem := fun _ => sgdma_desc.zero }

/-! ## `altfb_setcolreg` -/

/-- The function `altfb_setcolreg(regno, red, green, blue, transp, info)`: the
value it returns and the palette it leaves. The argument `bits_per_pixel` is
`info->var.bits_per_pixel` and `pseudo_palette` is the table of `u32` behind
`info->pseudo_palette`, by index. -/
def altfb_setcolreg (regno red green blue transp : Nat) (bits_per_pixel : Nat)
    (pseudo_palette : Nat → Nat) : Int × (Nat → Nat) :=
  if regno > 255 then (1, pseudo_palette)
  else if bits_per_pixel = 16 then
    let red := red >>> 11
    let green := green >>> 10
    let blue := blue >>> 11
    if regno < 255 then
      (0, fun j =>
        if j = regno then
          (((red &&& 31) <<< 11) ||| ((green &&& 63) <<< 5) ||| (blue &&& 31)) % ULONG_MOD
        else pseudo_palette j)
    else (0, pseudo_palette)
  else
    let red := red >>> 8
    let green := green >>> 8
    let blue := blue >>> 8
    if regno < 255 then
      (0, fun j =>
        if j = regno then
          (((red &&& 255) <<< 16) ||| ((green &&& 255) <<< 8) ||| (blue &&& 255)) % ULONG_MOD
        else pseudo_palette j)
    else (0, pseudo_palette)

/-- The bits of a word that a colour channel declares as its own: the
`length` bits from bit `offset` up. -/
def bitfield_value (word : Nat) (f : fb_bitfield) : Nat :=
  (word >>> f.offset) % 2 ^ f.length

/-- The top `len` bits of a 16-bit magnitude. -/
def top_bits (mag len : Nat) : Nat := mag >>> (16 - len)

/-! ## `altfb_color_bar` -/

/-- The table `bars[0].bar`: the eight colours white, amber, cyan, green,
magenta, red, blue, black, each as red, green, blue. -/
def bars : List (List Nat) :=
  [ [204, 204, 204],
    [208, 208, 0],
    [0, 206, 206],
    [0, 239, 0],
    [239, 0, 239],
    [205, 0, 0],
    [0, 0, 255],
    [0, 0, 0] ]

/-- The entry `bars[0].bar[i][c]`. -/
def bar (i c : Nat) : Nat := (bars.getD i []).getD c 0

/-- The value `d` that `altfb_color_bar` computes for bar number `i`: an
`unsigned short` when `bits_per_pixel` is 16, an `unsigned` otherwise. -/
def color_bar_pixel (bits_per_pixel i : Nat) : Nat :=
  if bits_per_pixel = 16 then
    let d := (bar i 2 >>> 3) % U16_MOD
    let d := (d ||| ((bar i 1 <<< 2) &&& 0x7e0)) % U16_MOD
    let d := (d ||| ((bar i 0 <<< 8) &&& 0xf800)) % U16_MOD
    d
  else
    let d := bar i 2 % ULONG_MOD
    let d := (d ||| (bar i 1 <<< 8)) % ULONG_MOD
    let d := (d ||| (bar i 0 <<< 16)) % ULONG_MOD
    d

/-- The number of bytes of one store of `altfb_color_bar`: through `p16` (an
`unsigned short *`) when `bits_per_pixel` is 16, through `p32` (an
`unsigned *`) otherwise. -/
def color_bar_store_bytes (bits_per_pixel : Nat) : Nat :=
  if bits_per_pixel = 16 then 2 else 4

/-- The function `altfb_color_bar(info)`: the values it stores, in order. The
pointer starts at `info->screen_base` and moves up by one cell with every
store, so store number `k` goes to cell `k` of the surface. The arguments are
`info->var.xres`, `info->var.yres` and `info->var.bits_per_pixel`. -/
def altfb_color_bar (xres yres bits_per_pixel : Nat) : List Nat :=
  let xbar := xres / 8
  (List.range yres).flatMap fun _ =>
    (List.range 8).flatMap fun i =>
      List.replicate xbar (color_bar_pixel bits_per_pixel i)

/-- The cell of the surface shown at column `x` of row `y` when a row is
`xres` cells long, if `altfb_color_bar` stored to it. -/
def surface_pixel (cells : List Nat) (xres x y : Nat) : Option Nat :=
  cells[y * xres + x]?

/-! ## Notions used to state the properties of the ring -/

/-- The quotient `L / M` rounded up. -/
def ceil_div (L M : Nat) : Nat := (L + M - 1) / M

/-- The four stores of pass number `i` of the loop started in state `s`, in
program order. -/
def loop_ops (s : LoopState) (i : Nat) : List Op :=
  [ Op.store (s.desc + i) .read_addr ((s.start + i * DISPLAY_BYTES_PER_DESC) % ULONG_MOD),
    Op.store (s.desc + i) .next ((s.next_desc_phys + (i + 1) * sizeof_sgdma_desc) % ULONG_MOD),
    Op.store (s.desc + i) .bytes_to_transfer
      (min (s.len - i * DISPLAY_BYTES_PER_DESC) DISPLAY_BYTES_PER_DESC),
    Op.store (s.desc + i) .control ALTERA_SGDMA_DESCRIPTOR_CONTROL_OWNED_BY_HW_MSK ]

/-- The state in which `altfb_dma_start` enters its loop: the locals as
initialised and the four register writes done. -/
def loop_entry (base start len : Nat) (hw : Hw) : LoopState :=
  { start := start
    len := len
    next_desc_phys := (start + len) % ULONG_MOD
    desc := 0
    hw := (((hw.writel ALTERA_SGDMA_CONTROL_SOFTWARERESET_MSK (base + ALTERA_SGDMA_CONTROL)).writel
      0 (base + ALTERA_SGDMA_CONTROL)).writel 0xff (base + ALTERA_SGDMA_STATUS)).writel
      ((start + len) % ULONG_MOD) (base + ALTERA_SGDMA_NEXT_DESC_POINTER) }

/-- The register writes of a trace, oldest first, each as the pair of the
address written and the value written. -/
def reg_writes (t : List Op) : List (Nat × Nat) :=
  t.filterMap fun op =>
    match op with
    | .writel value addr => some (addr, value)
    | .store _ _ _ => none

/-- The physical address of descriptor number `i` of a table whose first
record is at the physical address `first` (32-bit address arithmetic). -/
def desc_phys (first i : Nat) : Nat := (first + i * sizeof_sgdma_desc) % ULONG_MOD

/-- The number of the descriptor, among the `n` of the table, that lies at
the physical address `a`, if there is one. -/
def desc_at (first n a : Nat) : Option Nat :=
  (List.range n).find? fun i => decide (desc_phys first i = a)

/-- One step of the engine along the ring: from the address `a` of a
descriptor of the table to the address in its `next` field. -/
def ring_next (mem : Int → sgdma_desc) (first n a : Nat) : Option Nat :=
  (desc_at first n a).map fun (i : Nat) => (mem (i : Int)).next

/-- The address the engine has reached after `k` steps from `first`. -/
def ring_walk (mem : Int → sgdma_desc) (first n : Nat) : Nat → Option Nat
  | 0 => some first
  | k + 1 => (ring_walk mem first n k).bind (ring_next mem first n)

/-- Whether a control byte has the bit (or one of the bits) of `mask` set. -/
def has_flag (control mask : Nat) : Bool := control &&& mask != 0

/-- The byte offset of each field inside the packed record. -/
def Field.offset : Field → Nat
  | .read_addr => 0
  | .read_addr_pad => 4
  | .write_addr => 8
  | .write_addr_pad => 12
  | .next => 16
  | .next_pad => 20
  | .bytes_to_transfer => 24
  | .read_burst => 26
  | .write_burst => 27
  | .actual_bytes_transferred => 28
  | .status => 30
  | .control => 31

/-- A descriptor with the value `v` in the field `f`. -/
def sgdma_desc.set (d : sgdma_desc) (f : Field) (v : Nat) : sgdma_desc :=
  match f with
  | .read_addr => { d with read_addr := v }
  | .read_addr_pad => { d with read_addr_pad := v }
  | .write_addr => { d with write_addr := v }
  | .write_addr_pad => { d with write_addr_pad := v }
  | .next => { d with next := v }
  | .next_pad => { d with next_pad := v }
  | .bytes_to_transfer => { d with bytes_to_transfer := v }
  | .read_burst => { d with read_burst := v }
  | .write_burst => { d with write_burst := v }
  | .actual_bytes_transferred => { d with actual_bytes_transferred := v }
  | .status => { d with status := v }
  | .control => { d with control := v }

/-- Descriptor memory after one operation of a trace: a register write leaves
it alone, a store changes one field of one record. -/
def replay_op (m : Int → sgdma_desc) : Op → Int → sgdma_desc
  | .writel _ _ => m
  | .store idx f v => fun j => if j = idx then (m j).set f v else m j

/-- Descriptor memory after the operations of a trace, oldest first. -/
def replay (t : List Op) (m : Int → sgdma_desc) : Int → sgdma_desc :=
  t.foldl replay_op m

/-! ## Properties of the loop -/

theorem sizeof_sgdma_desc_eq : sizeof_sgdma_desc = 32 := by decide

theorem ceil_div_step (len : Nat) (h : len ≠ 0) :
    ceil_div len DISPLAY_BYTES_PER_DESC
      = ceil_div (len - min len DISPLAY_BYTES_PER_DESC) DISPLAY_BYTES_PER_DESC + 1 := by
  simp only [ceil_div, DISPLAY_BYTES_PER_DESC]
  omega

theorem dma_loop_unfold (s : LoopState) :
    dma_loop s = if s.len = 0 then s else dma_loop (dma_loop_body s) := by
  rw [dma_loop]
  split <;> simp_all

/-- The descriptor pointer after the loop is `ceil(len / M)` records further. -/
theorem dma_loop_desc (s : LoopState) :
    (dma_loop s).desc = s.desc + ceil_div s.len DISPLAY_BYTES_PER_DESC := by
  induction s using dma_loop.induct with
  | case1 s h =>
    rw [dma_loop_unfold, if_pos h, h]
    simp [ceil_div, DISPLAY_BYTES_PER_DESC]
  | case2 s h ih =>
    rw [dma_loop_unfold, if_neg h, ih, ceil_div_step s.len h]
    simp only [dma_loop_body]
    push_cast
    omega

/-- What one pass of the loop leaves in descriptor memory. -/
theorem dma_loop_body_mem (s : LoopState) (j : Int) :
    (dma_loop_body s).hw.desc j =
      if j = s.desc then
        { s.hw.desc j with
          read_addr := s.start % ULONG_MOD
          next := (s.next_desc_phys + sizeof_sgdma_desc) % ULONG_MOD
          bytes_to_transfer := min s.len DISPLAY_BYTES_PER_DESC
          control := ALTERA_SGDMA_DESCRIPTOR_CONTROL_OWNED_BY_HW_MSK }
      else s.hw.desc j := by
  by_cases hj : j = s.desc
  · simp only [dma_loop_body, Hw.store_read_addr, Hw.store_next, Hw.store_bytes_to_transfer,
      Hw.store_control, sgdma_desc.set_read_addr, sgdma_desc.set_next,
      sgdma_desc.set_bytes_to_transfer, sgdma_desc.set_control, if_pos hj]
    have h1 : min s.len DISPLAY_BYTES_PER_DESC % U16_MOD = min s.len DISPLAY_BYTES_PER_DESC := by
      simp only [DISPLAY_BYTES_PER_DESC, U16_MOD]; omega
    have h2 : ALTERA_SGDMA_DESCRIPTOR_CONTROL_OWNED_BY_HW_MSK % U8_MOD
        = ALTERA_SGDMA_DESCRIPTOR_CONTROL_OWNED_BY_HW_MSK := by decide
    rw [h1, h2, Nat.mod_mod]
  · simp only [dma_loop_body, Hw.store_read_addr, Hw.store_next, Hw.store_bytes_to_transfer,
      Hw.store_control, if_neg hj]

/-- The loop leaves every descriptor outside `[desc, desc + ceil(len / M))`
untouched. -/
theorem dma_loop_mem_outside (s : LoopState) (j : Int)
    (hj : ¬ (s.desc ≤ j ∧ j < s.desc + ceil_div s.len DISPLAY_BYTES_PER_DESC)) :
    (dma_loop s).hw.desc j = s.hw.desc j := by
  induction s using dma_loop.induct with
  | case1 s h => rw [dma_loop_unfold, if_pos h]
  | case2 s h ih =>
    rw [dma_loop_unfold, if_neg h]
    rw [ceil_div_step s.len h] at hj
    have hb : (dma_loop_body s).len = s.len - min s.len DISPLAY_BYTES_PER_DESC := rfl
    have hd : (dma_loop_body s).desc = s.desc + 1 := rfl
    rw [ih (by rw [hb, hd]; push_cast at hj ⊢; omega), dma_loop_body_mem]
    have : j ≠ s.desc := by push_cast at hj; omega
    rw [if_neg this]

/-- The fields the loop stores in descriptor number `i` of the ring. -/
theorem dma_loop_mem_inside (s : LoopState) (i : Nat)
    (hi : i < ceil_div s.len DISPLAY_BYTES_PER_DESC) :
    ((dma_loop s).hw.desc (s.desc + i)).read_addr
        = (s.start + i * DISPLAY_BYTES_PER_DESC) % ULONG_MOD ∧
    ((dma_loop s).hw.desc (s.desc + i)).next
        = (s.next_desc_phys + (i + 1) * sizeof_sgdma_desc) % ULONG_MOD ∧
    ((dma_loop s).hw.desc (s.desc + i)).bytes_to_transfer
        = min (s.len - i * DISPLAY_BYTES_PER_DESC) DISPLAY_BYTES_PER_DESC ∧
    ((dma_loop s).hw.desc (s.desc + i)).control
        = ALTERA_SGDMA_DESCRIPTOR_CONTROL_OWNED_BY_HW_MSK := by
  induction s using dma_loop.induct generalizing i with
  | case1 s h =>
    rw [h] at hi
    simp [ceil_div, DISPLAY_BYTES_PER_DESC] at hi
  | case2 s h ih =>
    rw [dma_loop_unfold, if_neg h]
    have hb : (dma_loop_body s).len = s.len - min s.len DISPLAY_BYTES_PER_DESC := rfl
    have hd : (dma_loop_body s).desc = s.desc + 1 := rfl
    have hs : (dma_loop_body s).start
        = (s.start + min s.len DISPLAY_BYTES_PER_DESC) % ULONG_MOD := rfl
    have hn : (dma_loop_body s).next_desc_phys
        = (s.next_desc_phys + sizeof_sgdma_desc) % ULONG_MOD := rfl
    rw [ceil_div_step s.len h] at hi
    cases i with
    | zero =>
      have ho := dma_loop_mem_outside (dma_loop_body s) (s.desc + (0 : Nat))
        (by rw [hd]; push_cast; omega)
      rw [ho, dma_loop_body_mem]
      simp
    | succ k =>
      have hk : k < ceil_div (dma_loop_body s).len DISPLAY_BYTES_PER_DESC := by
        rw [hb]; omega
      have := ih k hk
      have hidx : (dma_loop_body s).desc + (k : Int) = s.desc + ((k + 1 : Nat) : Int) := by
        rw [hd]; push_cast; omega
      rw [hidx, hb, hs, hn] at this
      have hpos : 0 < ceil_div (s.len - min s.len DISPLAY_BYTES_PER_DESC)
          DISPLAY_BYTES_PER_DESC := by omega
      have hlen : DISPLAY_BYTES_PER_DESC < s.len := by
        simp only [ceil_div, DISPLAY_BYTES_PER_DESC] at hpos ⊢
        omega
      obtain ⟨h1, h2, h3, h4⟩ := this
      refine ⟨?_, ?_, ?_, h4⟩
      · rw [h1]
        simp only [DISPLAY_BYTES_PER_DESC, ULONG_MOD] at hlen ⊢
        omega
      · rw [h2, sizeof_sgdma_desc_eq]
        simp only [ULONG_MOD]
        omega
      · rw [h3]
        simp only [DISPLAY_BYTES_PER_DESC] at hlen ⊢
        omega

/-- The operations one pass of the loop appends to the trace. -/
theorem dma_loop_body_trace (s : LoopState) :
    (dma_loop_body s).hw.trace = s.hw.trace ++ loop_ops s 0 := by
  have h1 : min s.len DISPLAY_BYTES_PER_DESC % U16_MOD = min s.len DISPLAY_BYTES_PER_DESC := by
    simp only [DISPLAY_BYTES_PER_DESC, U16_MOD]; omega
  have h2 : ALTERA_SGDMA_DESCRIPTOR_CONTROL_OWNED_BY_HW_MSK % U8_MOD
      = ALTERA_SGDMA_DESCRIPTOR_CONTROL_OWNED_BY_HW_MSK := by decide
  simp only [dma_loop_body, Hw.store_read_addr, Hw.store_next, Hw.store_bytes_to_transfer,
    Hw.store_control, loop_ops, h1, h2, Nat.mod_mod, List.append_assoc, List.cons_append,
    List.nil_append, Nat.cast_zero, add_zero, zero_mul, Nat.sub_zero, zero_add, one_mul]

/-- Pass `k` of the loop resumed after one pass is pass `k + 1` of the whole
loop, when the buffer is longer than one chunk. -/
theorem loop_ops_body (s : LoopState) (k : Nat) (hlen : DISPLAY_BYTES_PER_DESC < s.len) :
    loop_ops (dma_loop_body s) k = loop_ops s (k + 1) := by
  have hb : (dma_loop_body s).len = s.len - min s.len DISPLAY_BYTES_PER_DESC := rfl
  have hd : (dma_loop_body s).desc = s.desc + 1 := rfl
  have hs : (dma_loop_body s).start
      = (s.start + min s.len DISPLAY_BYTES_PER_DESC) % ULONG_MOD := rfl
  have hn : (dma_loop_body s).next_desc_phys
      = (s.next_desc_phys + sizeof_sgdma_desc) % ULONG_MOD := rfl
  have hidx : s.desc + 1 + (k : Int) = s.desc + ((k + 1 : Nat) : Int) := by
    push_cast; omega
  have e1 : ((s.start + min s.len DISPLAY_BYTES_PER_DESC) % ULONG_MOD
      + k * DISPLAY_BYTES_PER_DESC) % ULONG_MOD
      = (s.start + (k + 1) * DISPLAY_BYTES_PER_DESC) % ULONG_MOD := by
    simp only [DISPLAY_BYTES_PER_DESC, ULONG_MOD] at hlen ⊢
    omega
  have e2 : ((s.next_desc_phys + sizeof_sgdma_desc) % ULONG_MOD
      + (k + 1) * sizeof_sgdma_desc) % ULONG_MOD
      = (s.next_desc_phys + (k + 1 + 1) * sizeof_sgdma_desc) % ULONG_MOD := by
    rw [sizeof_sgdma_desc_eq]
    simp only [ULONG_MOD]
    omega
  have e3 : min (s.len - min s.len DISPLAY_BYTES_PER_DESC - k * DISPLAY_BYTES_PER_DESC)
      DISPLAY_BYTES_PER_DESC
      = min (s.len - (k + 1) * DISPLAY_BYTES_PER_DESC) DISPLAY_BYTES_PER_DESC := by
    simp only [DISPLAY_BYTES_PER_DESC] at hlen ⊢
    omega
  simp only [loop_ops, hb, hd, hs, hn, hidx, e1, e2, e3]

/-- The operations of the whole loop: the four stores of each pass, pass after
pass, and nothing else. -/
theorem dma_loop_trace (s : LoopState) :
    (dma_loop s).hw.trace
      = s.hw.trace ++ (List.range (ceil_div s.len DISPLAY_BYTES_PER_DESC)).flatMap (loop_ops s) := by
  induction s using dma_loop.induct with
  | case1 s h =>
    rw [dma_loop_unfold, if_pos h, h]
    simp [ceil_div, DISPLAY_BYTES_PER_DESC]
  | case2 s h ih =>
    rw [dma_loop_unfold, if_neg h, ih, dma_loop_body_trace, ceil_div_step s.len h,
      List.range_succ_eq_map, List.flatMap_cons, List.flatMap_map, List.append_assoc]
    have hb : (dma_loop_body s).len = s.len - min s.len DISPLAY_BYTES_PER_DESC := rfl
    rw [hb]
    congr 2
    apply List.flatMap_congr
    intro k hk
    rw [List.mem_range] at hk
    have hlen : DISPLAY_BYTES_PER_DESC < s.len := by
      simp only [ceil_div, DISPLAY_BYTES_PER_DESC] at hk ⊢
      omega
    exact loop_ops_body s k hlen

/-! ## Properties of `altfb_dma_start` -/

/-- The function `altfb_dma_start` as its loop followed by the three patches
and the last register write. -/
theorem altfb_dma_start_unfold (base start len : Nat) (hw : Hw) :
    altfb_dma_start base start len hw =
      (0, ((((dma_loop (loop_entry base start len hw)).hw.store_next
            ((ceil_div len DISPLAY_BYTES_PER_DESC : Int) - 1) ((start + len) % ULONG_MOD)).store_control
            ((ceil_div len DISPLAY_BYTES_PER_DESC : Int) - 1)
            (ALTERA_SGDMA_DESCRIPTOR_CONTROL_OWNED_BY_HW_MSK |||
              ALTERA_SGDMA_DESCRIPTOR_CONTROL_GENERATE_EOP_MSK)).store_control 0
            (ALTERA_SGDMA_DESCRIPTOR_CONTROL_OWNED_BY_HW_MSK |||
              ALTERA_SGDMA_DESCRIPTOR_CONTROL_GENERATE_SOP_MSK)).writel
            (ALTERA_SGDMA_CONTROL_RUN_MSK ||| ALTERA_SGDMA_CONTROL_PARK_MSK)
            (base + ALTERA_SGDMA_CONTROL)) := by
  simp only [altfb_dma_start, loop_entry, dma_loop_desc, zero_add]

/-- The fields of descriptor number `i` of the ring that `altfb_dma_start`
leaves in memory, for a buffer that is not empty. -/
theorem altfb_dma_start_desc (base start len : Nat) (hw : Hw)
    (i : Nat) (hi : i < ceil_div len DISPLAY_BYTES_PER_DESC) :
    ((altfb_dma_start base start len hw).2.desc i).read_addr
        = (start + i * DISPLAY_BYTES_PER_DESC) % ULONG_MOD ∧
    ((altfb_dma_start base start len hw).2.desc i).bytes_to_transfer
        = min (len - i * DISPLAY_BYTES_PER_DESC) DISPLAY_BYTES_PER_DESC ∧
    ((altfb_dma_start base start len hw).2.desc i).next
        = (if i + 1 = ceil_div len DISPLAY_BYTES_PER_DESC then (start + len) % ULONG_MOD
           else ((start + len) % ULONG_MOD + (i + 1) * sizeof_sgdma_desc) % ULONG_MOD) ∧
    ((altfb_dma_start base start len hw).2.desc i).control
        = (if i = 0 then 0x84 else if i + 1 = ceil_div len DISPLAY_BYTES_PER_DESC then 0x81
           else 0x80) := by
  have hin := dma_loop_mem_inside (loop_entry base start len hw) i hi
  have hd : (loop_entry base start len hw).desc = 0 := rfl
  have hs : (loop_entry base start len hw).start = start := rfl
  have hl : (loop_entry base start len hw).len = len := rfl
  have hn : (loop_entry base start len hw).next_desc_phys = (start + len) % ULONG_MOD := rfl
  rw [hd, hs, hl, hn, zero_add] at hin
  obtain ⟨h1, h2, h3, h4⟩ := hin
  rw [altfb_dma_start_unfold]
  generalize dma_loop (loop_entry base start len hw) = S at h1 h2 h3 h4 ⊢
  simp only [Hw.writel, Hw.store_next, Hw.store_control, sgdma_desc.set_next,
    sgdma_desc.set_control]
  have e81 : (ALTERA_SGDMA_DESCRIPTOR_CONTROL_OWNED_BY_HW_MSK |||
      ALTERA_SGDMA_DESCRIPTOR_CONTROL_GENERATE_EOP_MSK) % U8_MOD = 0x81 := by decide
  have e84 : (ALTERA_SGDMA_DESCRIPTOR_CONTROL_OWNED_BY_HW_MSK |||
      ALTERA_SGDMA_DESCRIPTOR_CONTROL_GENERATE_SOP_MSK) % U8_MOD = 0x84 := by decide
  have e80 : ALTERA_SGDMA_DESCRIPTOR_CONTROL_OWNED_BY_HW_MSK = 0x80 := rfl
  by_cases h0 : i = 0
  · by_cases hl : i + 1 = ceil_div len DISPLAY_BYTES_PER_DESC
    · have hc : ((i : Int) = (ceil_div len DISPLAY_BYTES_PER_DESC : Int) - 1) := by omega
      have hz : ((i : Int) = 0) := by omega
      simp only [if_pos hc, if_pos hz, if_pos hl, if_pos h0, h1, h3, e84, Nat.mod_mod]
      simp
    · have hc : ¬ ((i : Int) = (ceil_div len DISPLAY_BYTES_PER_DESC : Int) - 1) := by omega
      have hz : ((i : Int) = 0) := by omega
      simp only [if_neg hc, if_pos hz, if_neg hl, if_pos h0, h1, h2, h3, e84]
      simp
  · by_cases hl : i + 1 = ceil_div len DISPLAY_BYTES_PER_DESC
    · have hc : ((i : Int) = (ceil_div len DISPLAY_BYTES_PER_DESC : Int) - 1) := by omega
      have hz : ¬ ((i : Int) = 0) := by omega
      simp only [if_pos hc, if_neg hz, if_pos hl, if_neg h0, h1, h3, e81, Nat.mod_mod]
      simp
    · have hc : ¬ ((i : Int) = (ceil_div len DISPLAY_BYTES_PER_DESC : Int) - 1) := by omega
      have hz : ¬ ((i : Int) = 0) := by omega
      simp only [if_neg hc, if_neg hz, if_neg hl, if_neg h0, h1, h2, h3, h4, e80]
      simp

/-- Every operation of `altfb_dma_start`, in program order: four register
writes, the stores of the loop, the three patches, the last register write. -/
theorem altfb_dma_start_trace (base start len : Nat) (mem : Int → sgdma_desc) :
    (altfb_dma_start base start len ⟨mem, []⟩).2.trace =
      [ Op.writel ALTERA_SGDMA_CONTROL_SOFTWARERESET_MSK ((base + ALTERA_SGDMA_CONTROL) % ULONG_MOD),
        Op.writel 0 ((base + ALTERA_SGDMA_CONTROL) % ULONG_MOD),
        Op.writel 0xff ((base + ALTERA_SGDMA_STATUS) % ULONG_MOD),
        Op.writel ((start + len) % ULONG_MOD)
          ((base + ALTERA_SGDMA_NEXT_DESC_POINTER) % ULONG_MOD) ]
      ++ (List.range (ceil_div len DISPLAY_BYTES_PER_DESC)).flatMap
          (loop_ops (loop_entry base start len ⟨mem, []⟩))
      ++ [ Op.store ((ceil_div len DISPLAY_BYTES_PER_DESC : Int) - 1) .next
            ((start + len) % ULONG_MOD),
           Op.store ((ceil_div len DISPLAY_BYTES_PER_DESC : Int) - 1) .control 0x81,
           Op.store 0 .control 0x84,
           Op.writel 0x20020 ((base + ALTERA_SGDMA_CONTROL) % ULONG_MOD) ] := by
  rw [altfb_dma_start_unfold]
  simp only [Hw.writel, Hw.store_next, Hw.store_control, dma_loop_trace]
  have hl : (loop_entry base start len ⟨mem, []⟩).len = len := rfl
  have ht : (loop_entry base start len ⟨mem, []⟩).hw.trace =
      [ Op.writel ALTERA_SGDMA_CONTROL_SOFTWARERESET_MSK ((base + ALTERA_SGDMA_CONTROL) % ULONG_MOD),
        Op.writel 0 ((base + ALTERA_SGDMA_CONTROL) % ULONG_MOD),
        Op.writel 0xff ((base + ALTERA_SGDMA_STATUS) % ULONG_MOD),
        Op.writel ((start + len) % ULONG_MOD)
          ((base + ALTERA_SGDMA_NEXT_DESC_POINTER) % ULONG_MOD) ] := by
    simp only [loop_entry, Hw.writel, List.nil_append, List.cons_append, Nat.mod_mod]
    rfl
  rw [hl, ht]
  have e81 : (ALTERA_SGDMA_DESCRIPTOR_CONTROL_OWNED_BY_HW_MSK |||
      ALTERA_SGDMA_DESCRIPTOR_CONTROL_GENERATE_EOP_MSK) % U8_MOD = 0x81 := by decide
  have e84 : (ALTERA_SGDMA_DESCRIPTOR_CONTROL_OWNED_BY_HW_MSK |||
      ALTERA_SGDMA_DESCRIPTOR_CONTROL_GENERATE_SOP_MSK) % U8_MOD = 0x84 := by decide
  have erun : (ALTERA_SGDMA_CONTROL_RUN_MSK ||| ALTERA_SGDMA_CONTROL_PARK_MSK) % ULONG_MOD
      = 0x20020 := by decide
  rw [e81, e84, erun, Nat.mod_mod]
  simp only [List.append_assoc, List.cons_append, List.nil_append]

/-- The loop writes no register. -/
theorem reg_writes_loop_ops (s : LoopState) (l : List Nat) :
    reg_writes (l.flatMap (loop_ops s)) = [] := by
  induction l with
  | nil => rfl
  | cons a l ih =>
    rw [List.flatMap_cons, reg_writes, List.filterMap_append]
    rw [reg_writes] at ih
    rw [ih]
    rfl

/-- The stores of the loop go to the descriptors `desc + i` of the passes `i`
in the list, and to each of them. -/
theorem mem_loop_ops (s : LoopState) (l : List Nat) (idx : Int) :
    (∃ f v, Op.store idx f v ∈ l.flatMap (loop_ops s)) ↔ ∃ i ∈ l, idx = s.desc + i := by
  constructor
  · rintro ⟨f, v, h⟩
    rw [List.mem_flatMap] at h
    obtain ⟨i, hi, hop⟩ := h
    refine ⟨i, hi, ?_⟩
    simp only [loop_ops, List.mem_cons, Op.store.injEq, List.not_mem_nil, or_false] at hop
    rcases hop with h | h | h | h
    · exact h.1
    · exact h.1
    · exact h.1
    · exact h.1
  · rintro ⟨i, hi, rfl⟩
    refine ⟨.read_addr, (s.start + i * DISPLAY_BYTES_PER_DESC) % ULONG_MOD, ?_⟩
    rw [List.mem_flatMap]
    exact ⟨i, hi, by simp [loop_ops]⟩

/-- Chunks of at most `M` bytes cut from a buffer of `L` bytes add up to `L`
once there are enough of them. -/
theorem sum_chunks (n L : Nat) (h : L ≤ n * DISPLAY_BYTES_PER_DESC) :
    ∑ i ∈ Finset.range n, min (L - i * DISPLAY_BYTES_PER_DESC) DISPLAY_BYTES_PER_DESC = L := by
  induction n generalizing L with
  | zero =>
    simp only [Finset.range_zero, Finset.sum_empty]
    omega
  | succ n ih =>
    rw [Finset.sum_range_succ']
    have hstep : ∀ i ∈ Finset.range n,
        min (L - (i + 1) * DISPLAY_BYTES_PER_DESC) DISPLAY_BYTES_PER_DESC
          = min (L - DISPLAY_BYTES_PER_DESC - i * DISPLAY_BYTES_PER_DESC)
              DISPLAY_BYTES_PER_DESC := by
      intro i _
      simp only [DISPLAY_BYTES_PER_DESC]
      omega
    rw [Finset.sum_congr rfl hstep, ih (L - DISPLAY_BYTES_PER_DESC) (by
      simp only [DISPLAY_BYTES_PER_DESC] at h ⊢
      omega)]
    simp only [DISPLAY_BYTES_PER_DESC]
    omega

/-- The entry C1: for every buffer length `L ≥ 1`, `altfb_dma_start` stores to
exactly the descriptors with index `0 ≤ idx < ceil(L / 0xFF00)`, the
`bytes_to_transfer` fields of these descriptors are 16-bit values that add up
to `L`, and the last of them is in `(0, 0xFF00]`; the number `ceil(L / 0xFF00)`
is what the macro `DISPLAY_DESC_COUNT` computes as long as `L + 0xFEFF` fits
an `unsigned long`. -/
theorem altfb_dma_start_count_and_sum (base start L : Nat) (mem : Int → sgdma_desc)
    (hL : 1 ≤ L) :
    (∀ idx : Int, (∃ f v, Op.store idx f v ∈ (altfb_dma_start base start L ⟨mem, []⟩).2.trace)
        ↔ (0 ≤ idx ∧ idx < (ceil_div L DISPLAY_BYTES_PER_DESC : Int))) ∧
    (∀ i, i < ceil_div L DISPLAY_BYTES_PER_DESC →
      ((altfb_dma_start base start L ⟨mem, []⟩).2.desc i).bytes_to_transfer < U16_MOD) ∧
    (∑ i ∈ Finset.range (ceil_div L DISPLAY_BYTES_PER_DESC),
      ((altfb_dma_start base start L ⟨mem, []⟩).2.desc i).bytes_to_transfer) = L ∧
    0 < ((altfb_dma_start base start L ⟨mem, []⟩).2.desc
          ((ceil_div L DISPLAY_BYTES_PER_DESC : Int) - 1)).bytes_to_transfer ∧
    ((altfb_dma_start base start L ⟨mem, []⟩).2.desc
          ((ceil_div L DISPLAY_BYTES_PER_DESC : Int) - 1)).bytes_to_transfer
      ≤ DISPLAY_BYTES_PER_DESC ∧
    (L + 0xFEFF < ULONG_MOD → DISPLAY_DESC_COUNT L = ceil_div L DISPLAY_BYTES_PER_DESC) := by
  have hn : 1 ≤ ceil_div L DISPLAY_BYTES_PER_DESC := by
    simp only [ceil_div, DISPLAY_BYTES_PER_DESC]
    omega
  have hcover : L ≤ ceil_div L DISPLAY_BYTES_PER_DESC * DISPLAY_BYTES_PER_DESC := by
    simp only [ceil_div, DISPLAY_BYTES_PER_DESC]
    omega
  have hlast : (ceil_div L DISPLAY_BYTES_PER_DESC - 1) * DISPLAY_BYTES_PER_DESC < L := by
    simp only [ceil_div, DISPLAY_BYTES_PER_DESC]
    omega
  have hbytes : 0 < ((altfb_dma_start base start L ⟨mem, []⟩).2.desc
        ((ceil_div L DISPLAY_BYTES_PER_DESC : Int) - 1)).bytes_to_transfer ∧
      ((altfb_dma_start base start L ⟨mem, []⟩).2.desc
        ((ceil_div L DISPLAY_BYTES_PER_DESC : Int) - 1)).bytes_to_transfer
        ≤ DISPLAY_BYTES_PER_DESC := by
    have hidx : ((ceil_div L DISPLAY_BYTES_PER_DESC : Int) - 1)
        = ((ceil_div L DISPLAY_BYTES_PER_DESC - 1 : Nat) : Int) := by omega
    rw [hidx, (altfb_dma_start_desc base start L ⟨mem, []⟩ _ (by omega)).2.1]
    simp only [DISPLAY_BYTES_PER_DESC] at hlast ⊢
    omega
  refine ⟨?_, ?_, ?_, hbytes.1, hbytes.2, ?_⟩
  · intro idx
    rw [altfb_dma_start_trace]
    have hloop := mem_loop_ops (loop_entry base start L ⟨mem, []⟩)
      (List.range (ceil_div L DISPLAY_BYTES_PER_DESC)) idx
    have hd : (loop_entry base start L ⟨mem, []⟩).desc = 0 := rfl
    rw [hd] at hloop
    constructor
    · rintro ⟨f, v, h⟩
      simp only [List.mem_append, List.mem_cons, List.mem_singleton, Op.store.injEq,
        List.not_mem_nil, or_false, false_or, reduceCtorEq] at h
      rcases h with h | h | h | h
      · obtain ⟨i, hi, hidx⟩ := hloop.mp ⟨f, v, h⟩
        rw [List.mem_range] at hi
        omega
      · omega
      · omega
      · omega
    · rintro ⟨h0, h1⟩
      obtain ⟨f, v, h⟩ := hloop.mpr ⟨idx.toNat, by rw [List.mem_range]; omega, by omega⟩
      exact ⟨f, v, by simp only [List.mem_append]; exact Or.inl (Or.inr h)⟩
  · intro i hi
    rw [(altfb_dma_start_desc base start L ⟨mem, []⟩ i hi).2.1]
    simp only [DISPLAY_BYTES_PER_DESC, U16_MOD]
    omega
  · rw [Finset.sum_congr rfl (fun i hi =>
      (altfb_dma_start_desc base start L ⟨mem, []⟩ i (Finset.mem_range.mp hi)).2.1)]
    exact sum_chunks _ L hcover
  · intro hfit
    simp only [DISPLAY_DESC_COUNT, ceil_div, DISPLAY_BYTES_PER_DESC, ULONG_MOD] at hfit ⊢
    rw [Nat.mod_eq_of_lt (by omega)]

/-- A buffer whose length fits an `unsigned long` needs fewer than `2^17`
descriptors. -/
theorem ceil_div_lt (L : Nat) (hL : L < ULONG_MOD) :
    ceil_div L DISPLAY_BYTES_PER_DESC < 131072 := by
  simp only [ceil_div, DISPLAY_BYTES_PER_DESC, ULONG_MOD] at hL ⊢
  omega

/-- The descriptors of a table of fewer than `2^17` records lie at different
addresses. -/
theorem desc_phys_inj (first i j : Nat) (hi : i < 131072) (hj : j < 131072)
    (h : desc_phys first i = desc_phys first j) : i = j := by
  simp only [desc_phys, sizeof_sgdma_desc_eq, ULONG_MOD] at h
  omega

/-- Looking up the address of descriptor `i` of the table finds `i`. -/
theorem desc_at_desc_phys (first n i : Nat) (hn : n ≤ 131072) (hi : i < n) :
    desc_at first n (desc_phys first i) = some i := by
  rw [desc_at, List.find?_range_eq_some]
  refine ⟨by simp, List.mem_range.mpr hi, ?_⟩
  intro j hj
  have hne : desc_phys first j ≠ desc_phys first i := fun h =>
    absurd (desc_phys_inj first j i (by omega) (by omega) h) (by omega)
  simp [hne]

/-- Walking a table whose `next` fields chain the records in order and close
the ring: step `k` is at record `k`, and step `n` is back at the first. -/
theorem ring_walk_chain (m : Int → sgdma_desc) (first n : Nat) (hn : n ≤ 131072)
    (hnext : ∀ i, i < n →
      (m i).next = if i + 1 = n then first else desc_phys first (i + 1))
    (hfirst : first < ULONG_MOD) :
    (∀ k, k < n → ring_walk m first n k = some (desc_phys first k)) ∧
    (0 < n → ring_walk m first n n = some first) := by
  have hstep : ∀ k, k < n → ring_walk m first n k = some (desc_phys first k) := by
    intro k
    induction k with
    | zero =>
      intro _
      simp only [ring_walk, desc_phys, zero_mul, add_zero, Nat.mod_eq_of_lt hfirst]
    | succ k ih =>
      intro hk
      rw [ring_walk, ih (by omega), Option.some_bind, ring_next,
        desc_at_desc_phys first n k hn (by omega), Option.map_some', hnext k (by omega),
        if_neg (by omega)]
  refine ⟨hstep, ?_⟩
  intro hpos
  obtain ⟨k, rfl⟩ : ∃ k, n = k + 1 := ⟨n - 1, by omega⟩
  rw [ring_walk, hstep k (by omega), Option.some_bind, ring_next,
    desc_at_desc_phys first (k + 1) k hn (by omega), Option.map_some', hnext k (by omega),
    if_pos rfl]

/-- The entry C2: for every buffer length `L ≥ 1` (an `unsigned long`), the
ring built by `altfb_dma_start` is circular. Walking the `next` fields from
the address `start + L` of the first descriptor, step `k` is at descriptor
`k` for every `k` below the number `n` of descriptors, these `n` addresses are
pairwise different, and step `n` is back at the first descriptor; the last
descriptor holds the address of the first in `next`, and every `next` is the
address of a descriptor of the ring. -/
theorem altfb_dma_start_ring_circular (base start L : Nat) (mem : Int → sgdma_desc)
    (hL : 1 ≤ L) (hL32 : L < ULONG_MOD) :
    (∀ k, k < ceil_div L DISPLAY_BYTES_PER_DESC →
      ring_walk (altfb_dma_start base start L ⟨mem, []⟩).2.desc ((start + L) % ULONG_MOD)
        (ceil_div L DISPLAY_BYTES_PER_DESC) k
        = some (desc_phys ((start + L) % ULONG_MOD) k)) ∧
    (∀ i j, i < ceil_div L DISPLAY_BYTES_PER_DESC → j < ceil_div L DISPLAY_BYTES_PER_DESC →
      desc_phys ((start + L) % ULONG_MOD) i = desc_phys ((start + L) % ULONG_MOD) j → i = j) ∧
    ring_walk (altfb_dma_start base start L ⟨mem, []⟩).2.desc ((start + L) % ULONG_MOD)
        (ceil_div L DISPLAY_BYTES_PER_DESC) (ceil_div L DISPLAY_BYTES_PER_DESC)
      = some ((start + L) % ULONG_MOD) ∧
    ((altfb_dma_start base start L ⟨mem, []⟩).2.desc
        ((ceil_div L DISPLAY_BYTES_PER_DESC : Int) - 1)).next = (start + L) % ULONG_MOD ∧
    (∀ i, i < ceil_div L DISPLAY_BYTES_PER_DESC →
      ∃ j, j < ceil_div L DISPLAY_BYTES_PER_DESC ∧
        ((altfb_dma_start base start L ⟨mem, []⟩).2.desc i).next
          = desc_phys ((start + L) % ULONG_MOD) j) := by
  have hn : 1 ≤ ceil_div L DISPLAY_BYTES_PER_DESC := by
    simp only [ceil_div, DISPLAY_BYTES_PER_DESC]
    omega
  have hlt := ceil_div_lt L hL32
  have hfirst : (start + L) % ULONG_MOD < ULONG_MOD := Nat.mod_lt _ (by decide)
  have hnext : ∀ i, i < ceil_div L DISPLAY_BYTES_PER_DESC →
      ((altfb_dma_start base start L ⟨mem, []⟩).2.desc i).next
        = if i + 1 = ceil_div L DISPLAY_BYTES_PER_DESC then (start + L) % ULONG_MOD
          else desc_phys ((start + L) % ULONG_MOD) (i + 1) := fun i hi =>
    (altfb_dma_start_desc base start L ⟨mem, []⟩ i hi).2.2.1
  have hwalk := ring_walk_chain (altfb_dma_start base start L ⟨mem, []⟩).2.desc
    ((start + L) % ULONG_MOD) (ceil_div L DISPLAY_BYTES_PER_DESC) (by omega) hnext hfirst
  refine ⟨hwalk.1, ?_, hwalk.2 (by omega), ?_, ?_⟩
  · intro i j hi hj h
    exact desc_phys_inj _ i j (by omega) (by omega) h
  · have hidx : ((ceil_div L DISPLAY_BYTES_PER_DESC : Int) - 1)
        = ((ceil_div L DISPLAY_BYTES_PER_DESC - 1 : Nat) : Int) := by omega
    rw [hidx, hnext _ (by omega), if_pos (by omega)]
  · intro i hi
    by_cases hlast : i + 1 = ceil_div L DISPLAY_BYTES_PER_DESC
    · refine ⟨0, by omega, ?_⟩
      rw [hnext i hi, if_pos hlast]
      simp only [desc_phys, zero_mul, add_zero, Nat.mod_mod]
    · exact ⟨i + 1, by omega, by rw [hnext i hi, if_neg hlast]⟩

/-- The entry C1 at the 640x480, 16 bpp buffer: `L = 614400` gives ten
descriptors, whose sizes add up to `614400`, the last one of `26880` bytes. -/
theorem altfb_dma_start_count_and_sum_witness :
    ceil_div 614400 DISPLAY_BYTES_PER_DESC = 10 ∧
    DISPLAY_DESC_COUNT 614400 = 10 ∧
    (∀ idx : Int,
      (∃ f v, Op.store idx f v ∈
        (altfb_dma_start 0x4000 0x100000 614400 ⟨fun _ => sgdma_desc.zero, []⟩).2.trace)
        ↔ (0 ≤ idx ∧ idx < 10)) ∧
    (∑ i ∈ Finset.range 10,
      ((altfb_dma_start 0x4000 0x100000 614400 ⟨fun _ => sgdma_desc.zero, []⟩).2.desc
        i).bytes_to_transfer) = 614400 ∧
    ((altfb_dma_start 0x4000 0x100000 614400 ⟨fun _ => sgdma_desc.zero, []⟩).2.desc
        9).bytes_to_transfer = 26880 := by
  have hc : ceil_div 614400 DISPLAY_BYTES_PER_DESC = 10 := by decide
  have h := altfb_dma_start_count_and_sum 0x4000 0x100000 614400
    (fun _ => sgdma_desc.zero) (by decide)
  rw [hc] at h
  refine ⟨hc, by decide, by simpa using h.1, h.2.2.1, ?_⟩
  have h9 := (altfb_dma_start_desc 0x4000 0x100000 614400 ⟨fun _ => sgdma_desc.zero, []⟩ 9
    (by rw [hc]; decide)).2.1
  have e : ((9 : Nat) : Int) = 9 := rfl
  have hm : min (614400 - 9 * DISPLAY_BYTES_PER_DESC) DISPLAY_BYTES_PER_DESC = 26880 := by
    decide
  rw [e, hm] at h9
  exact h9

/-- The entry C2 at the 640x480, 16 bpp buffer at physical address
`0x100000`: the ring of ten descriptors starts at `0x196000`, its last
descriptor points back there, and ten steps along `next` return there. -/
theorem altfb_dma_start_ring_circular_witness :
    ring_walk (altfb_dma_start 0x4000 0x100000 614400 ⟨fun _ => sgdma_desc.zero, []⟩).2.desc
      0x196000 10 10 = some 0x196000 ∧
    ((altfb_dma_start 0x4000 0x100000 614400 ⟨fun _ => sgdma_desc.zero, []⟩).2.desc 9).next
      = 0x196000 := by
  have hc : ceil_div 614400 DISPLAY_BYTES_PER_DESC = 10 := by decide
  have hf : (0x100000 + 614400) % ULONG_MOD = 0x196000 := by decide
  have h := altfb_dma_start_ring_circular 0x4000 0x100000 614400
    (fun _ => sgdma_desc.zero) (by decide) (by decide)
  have e : (((10 : Nat) : Int) - 1) = 9 := rfl
  rw [hc, hf, e] at h
  exact ⟨h.2.2.1, h.2.2.2.1⟩

/-- The entry C3, at a ring of one descriptor (`L = 1`): the control byte of
the only descriptor ends as `0x84`, owned-by-hardware and generate-SOP, and
the generate-EOP bit stored just before is lost, so no descriptor of the ring
has it. -/
theorem altfb_dma_start_single_descriptor_loses_eop (base start : Nat)
    (mem : Int → sgdma_desc) :
    ceil_div 1 DISPLAY_BYTES_PER_DESC = 1 ∧
    ((altfb_dma_start base start 1 ⟨mem, []⟩).2.desc 0).control = 0x84 ∧
    has_flag ((altfb_dma_start base start 1 ⟨mem, []⟩).2.desc 0).control
      ALTERA_SGDMA_DESCRIPTOR_CONTROL_GENERATE_SOP_MSK = true ∧
    has_flag ((altfb_dma_start base start 1 ⟨mem, []⟩).2.desc 0).control
      ALTERA_SGDMA_DESCRIPTOR_CONTROL_GENERATE_EOP_MSK = false := by
  have hc : ceil_div 1 DISPLAY_BYTES_PER_DESC = 1 := by decide
  have h := (altfb_dma_start_desc base start 1 ⟨mem, []⟩ 0 (by rw [hc]; decide)).2.2.2
  have e : ((0 : Nat) : Int) = 0 := rfl
  rw [e, if_pos rfl] at h
  rw [h]
  exact ⟨hc, rfl, by decide, by decide⟩

/-- The entry C4, at the empty buffer (`L = 0`): `altfb_dma_start` returns 0,
and it stores to the record before the table (index `-1`) and to the first
record of the table: its operations are the four register writes, the three
patches and the last register write, and afterwards the record at index `-1`
holds the address `start` in `next` and `0x81` in `control`, and the record at
index `0` holds `0x84` in `control`. -/
theorem altfb_dma_start_empty_buffer (base start : Nat) (mem : Int → sgdma_desc) :
    (altfb_dma_start base start 0 ⟨mem, []⟩).1 = 0 ∧
    (altfb_dma_start base start 0 ⟨mem, []⟩).2.trace =
      [ Op.writel 0x10000 ((base + 0x10) % ULONG_MOD),
        Op.writel 0 ((base + 0x10) % ULONG_MOD),
        Op.writel 0xff ((base + 0x00) % ULONG_MOD),
        Op.writel (start % ULONG_MOD) ((base + 0x20) % ULONG_MOD),
        Op.store (-1) .next (start % ULONG_MOD),
        Op.store (-1) .control 0x81,
        Op.store 0 .control 0x84,
        Op.writel 0x20020 ((base + 0x10) % ULONG_MOD) ] ∧
    (altfb_dma_start base start 0 ⟨mem, []⟩).2.desc (-1)
      = { mem (-1) with next := start % ULONG_MOD, control := 0x81 } ∧
    (altfb_dma_start base start 0 ⟨mem, []⟩).2.desc 0
      = { mem 0 with control := 0x84 } := by
  have hc : ceil_div 0 DISPLAY_BYTES_PER_DESC = 0 := by decide
  refine ⟨by rw [altfb_dma_start_unfold], ?_, ?_, ?_⟩
  · rw [altfb_dma_start_trace, hc]
    rfl
  · rw [altfb_dma_start_unfold, hc, dma_loop_unfold,
      if_pos (show (loop_entry base start 0 ⟨mem, []⟩).len = 0 from rfl)]
    simp only [Hw.writel, Hw.store_next, Hw.store_control, sgdma_desc.set_next,
      sgdma_desc.set_control, loop_entry]
    simp
    decide
  · rw [altfb_dma_start_unfold, hc, dma_loop_unfold,
      if_pos (show (loop_entry base start 0 ⟨mem, []⟩).len = 0 from rfl)]
    simp only [Hw.writel, Hw.store_next, Hw.store_control, sgdma_desc.set_next,
      sgdma_desc.set_control, loop_entry]
    simp
    decide

/-- The register writes of `altfb_dma_start`, in order. -/
theorem dma_start_reg_writes_list (base start len : Nat) (mem : Int → sgdma_desc) :
    reg_writes (altfb_dma_start base start len ⟨mem, []⟩).2.trace =
      [ ((base + ALTERA_SGDMA_CONTROL) % ULONG_MOD, ALTERA_SGDMA_CONTROL_SOFTWARERESET_MSK),
        ((base + ALTERA_SGDMA_CONTROL) % ULONG_MOD, 0),
        ((base + ALTERA_SGDMA_STATUS) % ULONG_MOD, 0xff),
        ((base + ALTERA_SGDMA_NEXT_DESC_POINTER) % ULONG_MOD, (start + len) % ULONG_MOD),
        ((base + ALTERA_SGDMA_CONTROL) % ULONG_MOD, 0x20020) ] := by
  rw [altfb_dma_start_trace]
  have h := reg_writes_loop_ops (loop_entry base start len ⟨mem, []⟩)
    (List.range (ceil_div len DISPLAY_BYTES_PER_DESC))
  rw [reg_writes] at h
  rw [reg_writes, List.filterMap_append, List.filterMap_append, h]
  rfl

/-- The entry C5: for every engine base and every buffer, the register writes
of `altfb_dma_start` are these five, in this order, and no others:
software-reset `0x10000` to Control (`base + 0x10`), `0` to Control, the
clear-status pattern `0xff` (all ones in the low byte) to Status
(`base + 0x00`), the physical address `start + len` of the first descriptor to
Next-Descriptor-Pointer (`base + 0x20`), and run|park = `0x20 | 0x20000` to
Control. -/
theorem altfb_dma_start_register_writes (base start len : Nat) (mem : Int → sgdma_desc) :
    reg_writes (altfb_dma_start base start len ⟨mem, []⟩).2.trace =
      [ ((base + 0x10) % ULONG_MOD, 0x10000),
        ((base + 0x10) % ULONG_MOD, 0),
        ((base + 0x00) % ULONG_MOD, 2 ^ 8 - 1),
        ((base + 0x20) % ULONG_MOD, (start + len) % ULONG_MOD),
        ((base + 0x10) % ULONG_MOD, 0x20 ||| 0x20000) ] := by
  rw [dma_start_reg_writes_list]
  rfl

/-- The entry C8 as the spec words it fails: the packed record is 32 bytes
long, not 28, and for a buffer of two chunks the `next` field of descriptor 0
is `table_base + 32`, not `table_base + 28`. -/
theorem altfb_dma_start_next_not_28 :
    sizeof_sgdma_desc ≠ 28 ∧
    ceil_div 130560 DISPLAY_BYTES_PER_DESC = 2 ∧
    ((altfb_dma_start 0x4000 0x100000 130560 ⟨fun _ => sgdma_desc.zero, []⟩).2.desc
        ((0 : Nat) : Int)).next ≠ (0x100000 + 130560) + (0 + 1) * 28 := by
  have hc : ceil_div 130560 DISPLAY_BYTES_PER_DESC = 2 := by decide
  have h := (altfb_dma_start_desc 0x4000 0x100000 130560 ⟨fun _ => sgdma_desc.zero, []⟩ 0
    (by rw [hc]; decide)).2.2.1
  rw [hc, if_neg (by decide)] at h
  rw [h]
  exact ⟨by decide, hc, by decide⟩

/-- The entry C8, amended: for every buffer length `L ≥ 1` and every
descriptor index `i` that is not the last, the `next` field written by
`altfb_dma_start` is `table_base + (i + 1) * sizeof(struct sgdma_desc)` in
32-bit arithmetic, where `table_base = start + L` and the packed record is 32
bytes long; when the sum does not leave the 32-bit address space this is the
number `start + L + (i + 1) * 32` itself. -/
theorem altfb_dma_start_next_field (base start L : Nat) (mem : Int → sgdma_desc)
    (hL : 1 ≤ L) (i : Nat) (hi : i + 1 < ceil_div L DISPLAY_BYTES_PER_DESC) :
    sizeof_sgdma_desc = 32 ∧
    ((altfb_dma_start base start L ⟨mem, []⟩).2.desc i).next
      = ((start + L) % ULONG_MOD + (i + 1) * sizeof_sgdma_desc) % ULONG_MOD ∧
    (start + L + (i + 1) * 32 < ULONG_MOD →
      ((altfb_dma_start base start L ⟨mem, []⟩).2.desc i).next = start + L + (i + 1) * 32) := by
  have h := (altfb_dma_start_desc base start L ⟨mem, []⟩ i (by omega)).2.2.1
  rw [if_neg (by omega)] at h
  refine ⟨sizeof_sgdma_desc_eq, h, ?_⟩
  intro hfit
  rw [h, sizeof_sgdma_desc_eq]
  have h1 : 1 ≤ L := hL
  simp only [ULONG_MOD] at hfit ⊢
  omega

/-- The entry C8, amended, at the 640x480, 16 bpp buffer at physical address
`0x100000`: descriptor 3 of the ten points at `0x196000 + 4 * 32`. -/
theorem altfb_dma_start_next_field_witness :
    ((altfb_dma_start 0x4000 0x100000 614400 ⟨fun _ => sgdma_desc.zero, []⟩).2.desc
        ((3 : Nat) : Int)).next = 0x196000 + 4 * 32 :=
  (altfb_dma_start_next_field 0x4000 0x100000 614400 (fun _ => sgdma_desc.zero)
    (by decide) 3 (by decide)).2.2 (by decide)

/-! ## Properties of `altfb_probe` -/

/-- The part of the probe from the allocation on keeps the resolved geometry:
it only fills in `smem_start` and `screen_base`. -/
theorem probe_attach_info (env : Env) (res : resource) (info : fb_info) (ev : List Event) :
    ∃ info', (probe_attach env res info ev).info = some info' ∧ info'.var = info.var ∧
      info'.fix.line_length = info.fix.line_length ∧
      info'.fix.smem_len = info.fix.smem_len := by
  unfold probe_attach
  split
  · exact ⟨info, rfl, rfl, rfl, rfl⟩
  · dsimp only
    split
    · exact ⟨_, rfl, rfl, rfl, rfl⟩
    · split
      · exact ⟨_, rfl, rfl, rfl, rfl⟩
      · split
        · exact ⟨_, rfl, rfl, rfl, rfl⟩
        · split
          · exact ⟨_, rfl, rfl, rfl, rfl⟩
          · split
            · exact ⟨_, rfl, rfl, rfl, rfl⟩
            · exact ⟨_, rfl, rfl, rfl, rfl⟩

/-- The entry C6: when `altfb_probe` reaches the geometry stage with width
`w`, height `h` and a requested depth `b` in {8, 16, 24, 32}, the record
`info` it leaves has effective depth 32 for a request of 24 and `b`
otherwise, `line_length = w * (effective depth / 8)` and
`smem_len = line_length * h`, both in 32-bit unsigned arithmetic. -/
theorem altfb_probe_geometry (env : Env) (res : resource) (w h b : Nat)
    (hres : env.res = some res) (hok : env.info_ok = true)
    (hw : env.width = some w) (hh : env.height = some h) (hb : env.bpp = some b)
    (hsup : b = 8 ∨ b = 16 ∨ b = 24 ∨ b = 32) :
    ∃ info, (altfb_probe env).info = some info ∧
      info.var.bits_per_pixel = (if b = 24 then 32 else b) ∧
      info.fix.line_length = (w * ((if b = 24 then 32 else b) / 8)) % ULONG_MOD ∧
      info.fix.smem_len = (info.fix.line_length * h) % ULONG_MOD := by
  unfold altfb_probe
  simp only [hres, hok, hw, hh, hb, Bool.true_eq_false, if_false]
  rcases hsup with rfl | rfl | rfl | rfl
  all_goals
    obtain ⟨info', h1, h2, h3, h4⟩ := probe_attach_info env res _ _
    refine ⟨info', h1, ?_, ?_, ?_⟩
    · rw [h2]; simp [probe_set_layout, ULONG_MOD]
    · rw [h3]; simp [probe_set_layout, ULONG_MOD, altfb_fix, altfb_default, Nat.shiftRight_eq_div_pow]
    · rw [h4, h3]; simp [probe_set_layout, ULONG_MOD, altfb_fix, altfb_default, Nat.shiftRight_eq_div_pow]

/-- The entry C6 at the two scenarios of the spec: 800x600 at 24 bpp resolves
to 32 bpp, stride 3200 and 1920000 pixel bytes, and 640x480 at 16 bpp to
stride 1280 and 614400 pixel bytes. -/
theorem altfb_probe_geometry_witness :
    (∃ info, (altfb_probe (env_ok 800 600 24)).info = some info ∧
      info.var.bits_per_pixel = 32 ∧ info.fix.line_length = 3200 ∧
      info.fix.smem_len = 1920000) ∧
    (∃ info, (altfb_probe (env_ok 640 480 16)).info = some info ∧
      info.var.bits_per_pixel = 16 ∧ info.fix.line_length = 1280 ∧
      info.fix.smem_len = 614400) := by
  constructor
  · obtain ⟨info, h1, h2, h3, h4⟩ := altfb_probe_geometry (env_ok 800 600 24) ⟨0x4000, 0x400⟩
      800 600 24 rfl rfl rfl rfl rfl (by decide)
    have e3 : info.fix.line_length = 3200 := by rw [h3]; decide
    refine ⟨info, h1, by rw [h2]; decide, e3, ?_⟩
    rw [h4, e3]
    decide
  · obtain ⟨info, h1, h2, h3, h4⟩ := altfb_probe_geometry (env_ok 640 480 16) ⟨0x4000, 0x400⟩
      640 480 16 rfl rfl rfl rfl rfl (by decide)
    have e3 : info.fix.line_length = 1280 := by rw [h3]; decide
    refine ⟨info, h1, by rw [h2]; decide, e3, ?_⟩
    rw [h4, e3]
    decide

/-- With the three properties present the probe resolves the geometry and goes
on to the allocation, having touched no hardware. -/
theorem altfb_probe_resolved (env : Env) (res : resource) (w h b : Nat)
    (hres : env.res = some res) (hok : env.info_ok = true)
    (hw : env.width = some w) (hh : env.height = some h) (hb : env.bpp = some b) :
    ∃ info ev, altfb_probe env = probe_attach env res info ev ∧
      info.var.xres = w % ULONG_MOD ∧ info.var.yres = h % ULONG_MOD ∧
      info.var.bits_per_pixel = (if b % ULONG_MOD = 24 then 32 else b % ULONG_MOD) ∧
      info.fix.line_length
        = (w % ULONG_MOD * ((if b % ULONG_MOD = 24 then 32 else b % ULONG_MOD) / 8))
            % ULONG_MOD ∧
      info.fix.smem_len = (info.fix.line_length * (h % ULONG_MOD)) % ULONG_MOD ∧
      ((if b % ULONG_MOD = 24 then 32 else b % ULONG_MOD) ≠ 16 →
        info.var.red = ⟨16, 8, 0⟩ ∧ info.var.green = ⟨8, 8, 0⟩ ∧ info.var.blue = ⟨0, 8, 0⟩) ∧
      probe_ops ev = [] ∧ (∀ e ∈ ev, e.is_hardware_access = false) := by
  unfold altfb_probe
  simp only [hres, hok, hw, hh, hb, Bool.true_eq_false, if_false]
  by_cases h24 : b % ULONG_MOD = 24
  · simp only [h24, if_true]
    refine ⟨_, _, rfl, ?_⟩
    simp [probe_set_layout, altfb_fix, altfb_default, Nat.shiftRight_eq_div_pow, probe_ops,
      Event.is_hardware_access]
  · simp only [h24, if_false]
    by_cases h16 : b % ULONG_MOD = 16
    · refine ⟨_, _, rfl, ?_⟩
      simp [probe_set_layout, altfb_fix, altfb_default, Nat.shiftRight_eq_div_pow, probe_ops,
        Event.is_hardware_access, h16]
    · refine ⟨_, _, rfl, ?_⟩
      simp [probe_set_layout, altfb_fix, altfb_default, Nat.shiftRight_eq_div_pow, probe_ops,
        Event.is_hardware_access, h16]

/-- The function `altfb_dma_start` always returns 0. -/
theorem altfb_dma_start_retval (base start len : Nat) (hw : Hw) :
    (altfb_dma_start base start len hw).1 = 0 := by
  rw [altfb_dma_start_unfold]

/-- The rest of the probe when every call succeeds. -/
theorem probe_attach_success (env : Env) (res : resource) (info : fb_info) (ev : List Event)
    (v p base : Nat) (hd : env.dma_alloc = some (v, p)) (hc : 0 ≤ env.cmap_ret)
    (hr : env.region_ok = true) (hs : env.sgdma_base = some base)
    (hreg : 0 ≤ env.register_ret) :
    (probe_attach env res info ev).retval = 0 ∧
    (probe_attach env res info ev).events =
      ev ++ [Event.dma_alloc_coherent
              ((info.fix.smem_len + DISPLAY_DESC_SIZE info.fix.smem_len) % ULONG_MOD),
             Event.fb_alloc_cmap 256, Event.platform_set_drvdata,
             Event.request_mem_region res.start res.size,
             Event.ioremap_nocache res.start res.size]
        ++ (altfb_dma_start base (p % ULONG_MOD) info.fix.smem_len ⟨env.mem, []⟩).2.trace.map
            Event.dma
        ++ [Event.iounmap base, Event.release_region res.start res.size, Event.printk,
            Event.altfb_color_bar info.var.xres info.var.yres info.var.bits_per_pixel,
            Event.register_framebuffer] ∧
    (probe_attach env res info ev).info =
      some { info with fix := { info.fix with smem_start := p % ULONG_MOD },
                       screen_base := some v } := by
  unfold probe_attach
  simp only [hd, hr, hs, Bool.true_eq_false, if_false, altfb_dma_start_retval, ne_eq,
    not_true_eq_false, if_neg (not_lt.mpr hc), if_neg (not_lt.mpr hreg)]
  simp

/-- The memory operations among the events made of a trace are the trace. -/
theorem probe_ops_map_dma (t : List Op) : probe_ops (t.map Event.dma) = t := by
  induction t with
  | nil => rfl
  | cons a t ih =>
    rw [probe_ops] at ih
    rw [List.map_cons, probe_ops, List.filterMap_cons]
    simp only
    rw [ih]

/-- The events and the register writes of a probe on which every call
succeeds. -/
theorem altfb_probe_success (env : Env) (res : resource) (w h b v p base : Nat)
    (hres : env.res = some res) (hok : env.info_ok = true)
    (hw : env.width = some w) (hh : env.height = some h) (hb : env.bpp = some b)
    (hd : env.dma_alloc = some (v, p)) (hc : 0 ≤ env.cmap_ret)
    (hr : env.region_ok = true) (hs : env.sgdma_base = some base)
    (hreg : 0 ≤ env.register_ret) :
    (altfb_probe env).retval = 0 ∧
    ∃ info, (altfb_probe env).info = some info ∧
      info.var.bits_per_pixel = (if b % ULONG_MOD = 24 then 32 else b % ULONG_MOD) ∧
      info.fix.line_length
        = (w % ULONG_MOD * ((if b % ULONG_MOD = 24 then 32 else b % ULONG_MOD) / 8))
            % ULONG_MOD ∧
      info.fix.smem_len = (info.fix.line_length * (h % ULONG_MOD)) % ULONG_MOD ∧
      info.fix.smem_start = p % ULONG_MOD ∧
      ((if b % ULONG_MOD = 24 then 32 else b % ULONG_MOD) ≠ 16 →
        info.var.red = ⟨16, 8, 0⟩ ∧ info.var.green = ⟨8, 8, 0⟩ ∧ info.var.blue = ⟨0, 8, 0⟩) ∧
      Event.dma_alloc_coherent
          ((info.fix.smem_len + DISPLAY_DESC_SIZE info.fix.smem_len) % ULONG_MOD)
        ∈ (altfb_probe env).events ∧
      probe_ops (altfb_probe env).events
        = (altfb_dma_start base info.fix.smem_start info.fix.smem_len ⟨env.mem, []⟩).2.trace := by
  obtain ⟨info, ev, heq, -, -, h3, h4, h5, h6, h7, -⟩ :=
    altfb_probe_resolved env res w h b hres hok hw hh hb
  obtain ⟨a1, a2, a3⟩ := probe_attach_success env res info ev v p base hd hc hr hs hreg
  rw [heq]
  refine ⟨a1, _, a3, h3, h4, h5, rfl, h6, ?_, ?_⟩
  · rw [a2]
    simp
  · rw [a2]
    simp only [probe_ops, List.filterMap_append] at h7 ⊢
    rw [h7]
    have := probe_ops_map_dma
      (altfb_dma_start base (p % ULONG_MOD) info.fix.smem_len ⟨env.mem, []⟩).2.trace
    rw [probe_ops] at this
    rw [this]
    simp

/-- The entry C7 as the spec words it fails: with the unsupported depth of
12 bpp (8x1 pixels, every call succeeding) the attach does not fail. It
returns 0, the geometry is resolved with depth 12, stride 8 and 8 pixel
bytes, the surface of 8 + 32 bytes is requested, and the DMA engine is
programmed with the five register writes. -/
theorem altfb_probe_accepts_bpp_12 :
    (12 ≠ 8 ∧ 12 ≠ 16 ∧ 12 ≠ 24 ∧ 12 ≠ 32) ∧
    env_bpp_12.bpp = some 12 ∧
    (altfb_probe env_bpp_12).retval = 0 ∧
    ∃ info, (altfb_probe env_bpp_12).info = some info ∧
      info.var.bits_per_pixel = 12 ∧ info.fix.line_length = 8 ∧ info.fix.smem_len = 8 ∧
      Event.dma_alloc_coherent 40 ∈ (altfb_probe env_bpp_12).events ∧
      reg_writes (probe_ops (altfb_probe env_bpp_12).events) =
        [ (0x80004010, 0x10000), (0x80004010, 0), (0x80004000, 0xff),
          (0x80004020, 0x100008), (0x80004010, 0x20020) ] := by
  obtain ⟨hret, info, h1, h2, h3, h4, h5, -, h7, h8⟩ :=
    altfb_probe_success env_bpp_12 ⟨0x4000, 0x400⟩ 8 1 12 0xC0100000 0x100000 0x80004000
      rfl rfl rfl rfl rfl rfl (by decide) rfl rfl (by decide)
  have e2 : info.var.bits_per_pixel = 12 := by rw [h2]; decide
  have e3 : info.fix.line_length = 8 := by rw [h3]; decide
  have e4 : info.fix.smem_len = 8 := by rw [h4, e3]; decide
  have e5 : info.fix.smem_start = 0x100000 := by rw [h5]; decide
  rw [e4] at h7
  rw [e4, e5] at h8
  refine ⟨by decide, rfl, hret, info, h1, e2, e3, e4, h7, ?_⟩
  rw [h8, dma_start_reg_writes_list]
  decide

/-- The entry C7, amended: `altfb_probe` rejects no depth. For every `bpp`
value outside {8, 16, 24, 32} the geometry is resolved with the requested
depth unchanged and the 8-8-8 colour layout, `line_length = width * (bpp / 8)`
and `smem_len = line_length * height` in 32-bit arithmetic; and when every
kernel call succeeds the attach returns 0, having requested the surface and
issued the five register writes. -/
theorem altfb_probe_unsupported_bpp (env : Env) (res : resource) (w h b v p base : Nat)
    (hres : env.res = some res) (hok : env.info_ok = true)
    (hw : env.width = some w) (hh : env.height = some h) (hb : env.bpp = some b)
    (hb32 : b < ULONG_MOD) (hunsup : b ≠ 8 ∧ b ≠ 16 ∧ b ≠ 24 ∧ b ≠ 32)
    (hd : env.dma_alloc = some (v, p)) (hc : 0 ≤ env.cmap_ret)
    (hr : env.region_ok = true) (hs : env.sgdma_base = some base)
    (hreg : 0 ≤ env.register_ret) :
    (altfb_probe env).retval = 0 ∧
    ∃ info, (altfb_probe env).info = some info ∧
      info.var.bits_per_pixel = b ∧
      info.var.red = ⟨16, 8, 0⟩ ∧ info.var.green = ⟨8, 8, 0⟩ ∧ info.var.blue = ⟨0, 8, 0⟩ ∧
      info.fix.line_length = (w * (b / 8)) % ULONG_MOD ∧
      info.fix.smem_len = (info.fix.line_length * h) % ULONG_MOD ∧
      Event.dma_alloc_coherent
          ((info.fix.smem_len + DISPLAY_DESC_SIZE info.fix.smem_len) % ULONG_MOD)
        ∈ (altfb_probe env).events ∧
      reg_writes (probe_ops (altfb_probe env).events) =
        [ ((base + 0x10) % ULONG_MOD, 0x10000),
          ((base + 0x10) % ULONG_MOD, 0),
          ((base + 0x00) % ULONG_MOD, 0xff),
          ((base + 0x20) % ULONG_MOD, (p % ULONG_MOD + info.fix.smem_len) % ULONG_MOD),
          ((base + 0x10) % ULONG_MOD, 0x20020) ] := by
  obtain ⟨hret, info, h1, h2, h3, h4, h5, h6, h7, h8⟩ :=
    altfb_probe_success env res w h b v p base hres hok hw hh hb hd hc hr hs hreg
  have hbm : b % ULONG_MOD = b := Nat.mod_eq_of_lt hb32
  rw [hbm, if_neg hunsup.2.2.1] at h2 h3 h6
  obtain ⟨r, g, bl⟩ := h6 hunsup.2.1
  refine ⟨hret, info, h1, h2, r, g, bl, ?_, ?_, h7, ?_⟩
  · rw [h3, Nat.mod_mul_mod]
  · rw [h4, Nat.mul_mod_mod]
  · rw [h8, dma_start_reg_writes_list, h5]
    rfl

/-- The entry C7, amended, at 100x50 pixels and the unsupported depth of
15 bpp with every call succeeding: the attach returns 0 with depth 15 and
stride 100. -/
theorem altfb_probe_unsupported_bpp_witness :
    (altfb_probe (env_ok 100 50 15)).retval = 0 ∧
    ∃ info, (altfb_probe (env_ok 100 50 15)).info = some info ∧
      info.var.bits_per_pixel = 15 ∧ info.fix.line_length = 100 := by
  obtain ⟨hret, info, h1, h2, -, -, -, h3, -⟩ :=
    altfb_probe_unsupported_bpp (env_ok 100 50 15) ⟨0x4000, 0x400⟩ 100 50 15
      0xC0100000 0x100000 0x80004000 rfl rfl rfl rfl rfl (by decide) (by decide)
      rfl (by decide) rfl rfl (by decide)
  exact ⟨hret, info, h1, h2, by rw [h3]; decide⟩

/-- The entry C9: if the device node lacks `width`, `height` or `bpp`,
`altfb_probe` returns a negative error code and has touched no hardware: no
event claims or maps the register block or belongs to `altfb_dma_start`, and
the register-write log is empty. -/
theorem altfb_probe_missing_property (env : Env)
    (h : env.width = none ∨ env.height = none ∨ env.bpp = none) :
    (altfb_probe env).retval < 0 ∧
    (∀ e ∈ (altfb_probe env).events, e.is_hardware_access = false) ∧
    reg_writes (probe_ops (altfb_probe env).events) = [] := by
  unfold altfb_probe
  cases hres : env.res with
  | none => simp [ENODEV, Event.is_hardware_access, probe_ops, reg_writes]
  | some res =>
    cases hok : env.info_ok with
    | false =>
      simp [ENOMEM, Event.is_hardware_access, probe_ops, reg_writes, probe_err]
    | true =>
      cases hw : env.width with
      | none => simp [ENODEV, Event.is_hardware_access, probe_ops, reg_writes]
      | some w =>
        cases hh : env.height with
        | none => simp [ENODEV, Event.is_hardware_access, probe_ops, reg_writes]
        | some ht =>
          cases hb : env.bpp with
          | none => simp [ENODEV, Event.is_hardware_access, probe_ops, reg_writes]
          | some b => simp [hw, hh, hb] at h

/-- The entry C9 at a device node for 640x480 at 16 bpp without the property
`height`: the probe fails with `-ENODEV` and no register write. -/
theorem altfb_probe_missing_property_witness :
    (altfb_probe { env_ok 640 480 16 with height := none }).retval < 0 ∧
    reg_writes (probe_ops (altfb_probe { env_ok 640 480 16 with height := none }).events)
      = [] :=
  have h := altfb_probe_missing_property { env_ok 640 480 16 with height := none }
    (Or.inr (Or.inl rfl))
  ⟨h.1, h.2.2⟩

/-- The entry C10, at a device node for 640x480 at 16 bpp on which
`ioremap_nocache` fails: the probe returns the error `EIO` negated; it had allocated 614720
bytes (614400 of pixels and ten descriptors of 32 bytes) and received the DMA
handle `0x100000`, kept in `info->fix.smem_start`, but the call of
`dma_free_coherent` it issues names the size 0 and the handle 0 of the
template `altfb_fix`. -/
theorem altfb_probe_ioremap_failure_free_mismatch :
    (altfb_probe env_ioremap_fails).retval = - EIO ∧
    (altfb_probe env_ioremap_fails).events =
      [ Event.platform_get_resource,
        Event.framebuffer_alloc 1024,
        Event.of_get_property "width",
        Event.of_get_property "height",
        Event.of_get_property "bpp",
        Event.dma_alloc_coherent 614720,
        Event.fb_alloc_cmap 256,
        Event.platform_set_drvdata,
        Event.request_mem_region 0x4000 0x400,
        Event.ioremap_nocache 0x4000 0x400,
        Event.release_region 0x4000 0x400,
        Event.fb_dealloc_cmap,
        Event.framebuffer_release,
        Event.dma_free_coherent 0 (some 0xC0100000) 0 ] ∧
    (altfb_probe env_ioremap_fails).info.map (fun i => (i.fix.smem_len, i.fix.smem_start))
      = some (614400, 0x100000) := by
  refine ⟨by decide, by decide, by decide⟩

/-! ## The chunks and the control bytes of the ring -/

/-- The entry C15: for every buffer length `L ≥ 1` and every descriptor index
`i < ceil(L / 0xFF00)`, the descriptor written by `altfb_dma_start` has
`read_addr = start + i * 0xFF00` (in 32-bit arithmetic, and as a number when
the buffer ends inside the address space) and
`bytes_to_transfer = min(0xFF00, L - i * 0xFF00)`, which is never 0. Each
chunk starts where the one before ends, the last ends at `start + L`, every
descriptor but the last transfers `0xFF00` bytes, and when `0xFF00` divides
`L` there are exactly `L / 0xFF00` descriptors of `0xFF00` bytes each. -/
theorem altfb_dma_start_chunks (base start L : Nat) (mem : Int → sgdma_desc) (hL : 1 ≤ L) :
    (∀ i, i < ceil_div L DISPLAY_BYTES_PER_DESC →
      ((altfb_dma_start base start L ⟨mem, []⟩).2.desc i).read_addr
          = (start + i * DISPLAY_BYTES_PER_DESC) % ULONG_MOD ∧
      (start + L ≤ ULONG_MOD →
        ((altfb_dma_start base start L ⟨mem, []⟩).2.desc i).read_addr
          = start + i * DISPLAY_BYTES_PER_DESC) ∧
      ((altfb_dma_start base start L ⟨mem, []⟩).2.desc i).bytes_to_transfer
          = min DISPLAY_BYTES_PER_DESC (L - i * DISPLAY_BYTES_PER_DESC) ∧
      0 < ((altfb_dma_start base start L ⟨mem, []⟩).2.desc i).bytes_to_transfer ∧
      (i + 1 < ceil_div L DISPLAY_BYTES_PER_DESC →
        ((altfb_dma_start base start L ⟨mem, []⟩).2.desc i).bytes_to_transfer
          = DISPLAY_BYTES_PER_DESC ∧
        ((altfb_dma_start base start L ⟨mem, []⟩).2.desc ((i + 1 : Nat) : Int)).read_addr
          = (((altfb_dma_start base start L ⟨mem, []⟩).2.desc i).read_addr
              + ((altfb_dma_start base start L ⟨mem, []⟩).2.desc i).bytes_to_transfer)
            % ULONG_MOD) ∧
      (i + 1 = ceil_div L DISPLAY_BYTES_PER_DESC →
        (((altfb_dma_start base start L ⟨mem, []⟩).2.desc i).read_addr
            + ((altfb_dma_start base start L ⟨mem, []⟩).2.desc i).bytes_to_transfer)
          % ULONG_MOD = (start + L) % ULONG_MOD)) ∧
    (L % DISPLAY_BYTES_PER_DESC = 0 →
      ceil_div L DISPLAY_BYTES_PER_DESC = L / DISPLAY_BYTES_PER_DESC ∧
      ∀ i, i < L / DISPLAY_BYTES_PER_DESC →
        ((altfb_dma_start base start L ⟨mem, []⟩).2.desc i).bytes_to_transfer
          = DISPLAY_BYTES_PER_DESC) := by
  constructor
  · intro i hi
    obtain ⟨h1, h2, -, -⟩ := altfb_dma_start_desc base start L ⟨mem, []⟩ i hi
    have hin : i * DISPLAY_BYTES_PER_DESC < L := by
      simp only [ceil_div, DISPLAY_BYTES_PER_DESC] at hi ⊢
      omega
    refine ⟨h1, ?_, ?_, ?_, ?_, ?_⟩
    · intro hfit
      rw [h1]
      simp only [DISPLAY_BYTES_PER_DESC, ULONG_MOD] at hin hfit ⊢
      omega
    · rw [h2, min_comm]
    · rw [h2]
      simp only [DISPLAY_BYTES_PER_DESC] at hin ⊢
      omega
    · intro hnext
      have hfull : (i + 1) * DISPLAY_BYTES_PER_DESC < L := by
        simp only [ceil_div, DISPLAY_BYTES_PER_DESC] at hnext ⊢
        omega
      have hb : ((altfb_dma_start base start L ⟨mem, []⟩).2.desc i).bytes_to_transfer
          = DISPLAY_BYTES_PER_DESC := by
        rw [h2]
        simp only [DISPLAY_BYTES_PER_DESC] at hfull ⊢
        omega
      refine ⟨hb, ?_⟩
      rw [(altfb_dma_start_desc base start L ⟨mem, []⟩ (i + 1) hnext).1, h1, hb]
      simp only [DISPLAY_BYTES_PER_DESC, ULONG_MOD]
      omega
    · intro hlast
      rw [h1, h2]
      simp only [DISPLAY_BYTES_PER_DESC, ULONG_MOD] at hin ⊢
      simp only [ceil_div, DISPLAY_BYTES_PER_DESC] at hlast
      omega
  · intro hdiv
    have hn : ceil_div L DISPLAY_BYTES_PER_DESC = L / DISPLAY_BYTES_PER_DESC := by
      simp only [ceil_div, DISPLAY_BYTES_PER_DESC] at hdiv ⊢
      omega
    refine ⟨hn, ?_⟩
    intro i hi
    rw [(altfb_dma_start_desc base start L ⟨mem, []⟩ i (by rw [hn]; exact hi)).2.1]
    simp only [DISPLAY_BYTES_PER_DESC] at hdiv hi ⊢
    omega

/-- The entry C15 at a buffer of exactly two chunks: `L = 2 * 0xFF00` gives
two descriptors of `0xFF00` bytes, at `start` and `start + 0xFF00`. -/
theorem altfb_dma_start_chunks_witness :
    ceil_div 130560 DISPLAY_BYTES_PER_DESC = 2 ∧
    (∀ i : Nat, i < 2 →
      ((altfb_dma_start 0x4000 0x100000 130560 ⟨fun _ => sgdma_desc.zero, []⟩).2.desc
        i).bytes_to_transfer = DISPLAY_BYTES_PER_DESC) ∧
    ((altfb_dma_start 0x4000 0x100000 130560 ⟨fun _ => sgdma_desc.zero, []⟩).2.desc
        ((1 : Nat) : Int)).read_addr = 0x100000 + 0xFF00 := by
  have hc : ceil_div 130560 DISPLAY_BYTES_PER_DESC = 2 := by decide
  have h := altfb_dma_start_chunks 0x4000 0x100000 130560 (fun _ => sgdma_desc.zero)
    (by decide)
  have hd := h.2 (by decide)
  have hq : 130560 / DISPLAY_BYTES_PER_DESC = 2 := by decide
  rw [hq] at hd
  exact ⟨hc, hd.2, (h.1 1 (by rw [hc]; decide)).2.1 (by decide)⟩

/-- The entry C16: for every buffer length `L ≥ 1`, every descriptor of the
ring left by `altfb_dma_start` has the owned-by-hardware bit `0x80` set in
`control`, and a descriptor that is neither the first nor the last has
`control` exactly `0x80`, so neither generate-SOP nor generate-EOP. -/
theorem altfb_dma_start_owned_by_hw (base start L : Nat) (mem : Int → sgdma_desc)
    (hL : 1 ≤ L) :
    ∀ i, i < ceil_div L DISPLAY_BYTES_PER_DESC →
      has_flag ((altfb_dma_start base start L ⟨mem, []⟩).2.desc i).control
        ALTERA_SGDMA_DESCRIPTOR_CONTROL_OWNED_BY_HW_MSK = true ∧
      (0 < i → i + 1 < ceil_div L DISPLAY_BYTES_PER_DESC →
        ((altfb_dma_start base start L ⟨mem, []⟩).2.desc i).control = 0x80 ∧
        has_flag ((altfb_dma_start base start L ⟨mem, []⟩).2.desc i).control
          ALTERA_SGDMA_DESCRIPTOR_CONTROL_GENERATE_SOP_MSK = false ∧
        has_flag ((altfb_dma_start base start L ⟨mem, []⟩).2.desc i).control
          ALTERA_SGDMA_DESCRIPTOR_CONTROL_GENERATE_EOP_MSK = false) := by
  have _h1 : 1 ≤ L := hL
  intro i hi
  have hc := (altfb_dma_start_desc base start L ⟨mem, []⟩ i hi).2.2.2
  constructor
  · rw [hc]
    split_ifs <;> decide
  · intro h0 hlast
    rw [hc, if_neg (by omega), if_neg (by omega)]
    exact ⟨rfl, by decide, by decide⟩

/-- The entry C16 at the 640x480, 16 bpp buffer: descriptor 3 of the ten has
`control = 0x80`. -/
theorem altfb_dma_start_owned_by_hw_witness :
    ((altfb_dma_start 0x4000 0x100000 614400 ⟨fun _ => sgdma_desc.zero, []⟩).2.desc
      ((3 : Nat) : Int)).control = 0x80 :=
  ((altfb_dma_start_owned_by_hw 0x4000 0x100000 614400 (fun _ => sgdma_desc.zero)
    (by decide) 3 (by decide)).2 (by decide) (by decide)).1

/-! ## The order of the operations and the bounds of the stores -/

theorem replay_append_one (t : List Op) (op : Op) (m : Int → sgdma_desc) :
    replay (t ++ [op]) m = replay_op (replay t m) op := by
  simp only [replay, List.foldl_append, List.foldl_cons, List.foldl_nil]

theorem writel_replay (hw : Hw) (m : Int → sgdma_desc) (value addr : Nat)
    (h : hw.desc = replay hw.trace m) :
    (hw.writel value addr).desc = replay (hw.writel value addr).trace m := by
  simp only [Hw.writel, replay_append_one, replay_op]
  exact h

theorem store_read_addr_replay (hw : Hw) (m : Int → sgdma_desc) (idx : Int) (v : Nat)
    (h : hw.desc = replay hw.trace m) :
    (hw.store_read_addr idx v).desc = replay (hw.store_read_addr idx v).trace m := by
  simp only [Hw.store_read_addr, replay_append_one, replay_op, ← h]
  rfl

theorem store_next_replay (hw : Hw) (m : Int → sgdma_desc) (idx : Int) (v : Nat)
    (h : hw.desc = replay hw.trace m) :
    (hw.store_next idx v).desc = replay (hw.store_next idx v).trace m := by
  simp only [Hw.store_next, replay_append_one, replay_op, ← h]
  rfl

theorem store_bytes_to_transfer_replay (hw : Hw) (m : Int → sgdma_desc) (idx : Int) (v : Nat)
    (h : hw.desc = replay hw.trace m) :
    (hw.store_bytes_to_transfer idx v).desc
      = replay (hw.store_bytes_to_transfer idx v).trace m := by
  simp only [Hw.store_bytes_to_transfer, replay_append_one, replay_op, ← h]
  rfl

theorem store_control_replay (hw : Hw) (m : Int → sgdma_desc) (idx : Int) (v : Nat)
    (h : hw.desc = replay hw.trace m) :
    (hw.store_control idx v).desc = replay (hw.store_control idx v).trace m := by
  simp only [Hw.store_control, replay_append_one, replay_op, ← h]
  rfl

/-- The loop keeps descriptor memory equal to the replay of the trace. -/
theorem dma_loop_replay (s : LoopState) (m : Int → sgdma_desc)
    (h : s.hw.desc = replay s.hw.trace m) :
    (dma_loop s).hw.desc = replay (dma_loop s).hw.trace m := by
  induction s using dma_loop.induct with
  | case1 s h0 =>
    rw [dma_loop_unfold, if_pos h0]
    exact h
  | case2 s h0 ih =>
    rw [dma_loop_unfold, if_neg h0]
    apply ih
    simp only [dma_loop_body]
    exact store_control_replay _ m _ _ (store_bytes_to_transfer_replay _ m _ _
      (store_next_replay _ m _ _ (store_read_addr_replay _ m _ _ h)))

/-- The descriptor memory `altfb_dma_start` leaves is the replay of its trace
on the memory it found. -/
theorem altfb_dma_start_replay (base start len : Nat) (mem : Int → sgdma_desc) :
    (altfb_dma_start base start len ⟨mem, []⟩).2.desc
      = replay (altfb_dma_start base start len ⟨mem, []⟩).2.trace mem := by
  rw [altfb_dma_start_unfold]
  apply writel_replay
  apply store_control_replay
  apply store_control_replay
  apply store_next_replay
  apply dma_loop_replay
  simp only [loop_entry]
  apply writel_replay
  apply writel_replay
  apply writel_replay
  apply writel_replay
  rfl

/-- The loop performs no register write. -/
theorem writel_not_mem_loop_ops (s : LoopState) (l : List Nat) (value addr : Nat) :
    Op.writel value addr ∉ l.flatMap (loop_ops s) := by
  intro h
  rw [List.mem_flatMap] at h
  obtain ⟨i, -, hop⟩ := h
  simp [loop_ops] at hop

/-- The entry C18: the write of run|park to Control is the last operation of
`altfb_dma_start` and happens once. Every descriptor store of the function
(those of the loop, the ring-closing `next` patch, the EOP and the SOP
patches) is among the operations before it, as is the write of the first
descriptor address to Next-Descriptor-Pointer, and the descriptor memory
reached by the operations before it is already the memory the function
leaves. -/
theorem altfb_dma_start_run_is_last (base start len : Nat) (mem : Int → sgdma_desc) :
    ∃ pre : List Op,
      (altfb_dma_start base start len ⟨mem, []⟩).2.trace
        = pre ++ [Op.writel (0x20 ||| 0x20000) ((base + 0x10) % ULONG_MOD)] ∧
      Op.writel (0x20 ||| 0x20000) ((base + 0x10) % ULONG_MOD) ∉ pre ∧
      (∀ idx f v, Op.store idx f v ∈ (altfb_dma_start base start len ⟨mem, []⟩).2.trace →
        Op.store idx f v ∈ pre) ∧
      Op.store ((ceil_div len DISPLAY_BYTES_PER_DESC : Int) - 1) .next
        ((start + len) % ULONG_MOD) ∈ pre ∧
      Op.store ((ceil_div len DISPLAY_BYTES_PER_DESC : Int) - 1) .control 0x81 ∈ pre ∧
      Op.store 0 .control 0x84 ∈ pre ∧
      Op.writel ((start + len) % ULONG_MOD) ((base + 0x20) % ULONG_MOD) ∈ pre ∧
      replay pre mem = (altfb_dma_start base start len ⟨mem, []⟩).2.desc := by
  have htrace := altfb_dma_start_trace base start len mem
  have hrep := altfb_dma_start_replay base start len mem
  refine ⟨[ Op.writel ALTERA_SGDMA_CONTROL_SOFTWARERESET_MSK
              ((base + ALTERA_SGDMA_CONTROL) % ULONG_MOD),
            Op.writel 0 ((base + ALTERA_SGDMA_CONTROL) % ULONG_MOD),
            Op.writel 0xff ((base + ALTERA_SGDMA_STATUS) % ULONG_MOD),
            Op.writel ((start + len) % ULONG_MOD)
              ((base + ALTERA_SGDMA_NEXT_DESC_POINTER) % ULONG_MOD) ]
      ++ (List.range (ceil_div len DISPLAY_BYTES_PER_DESC)).flatMap
          (loop_ops (loop_entry base start len ⟨mem, []⟩))
      ++ [ Op.store ((ceil_div len DISPLAY_BYTES_PER_DESC : Int) - 1) .next
            ((start + len) % ULONG_MOD),
           Op.store ((ceil_div len DISPLAY_BYTES_PER_DESC : Int) - 1) .control 0x81,
           Op.store 0 .control 0x84 ], ?_, ?_, ?_, ?_, ?_, ?_, ?_, ?_⟩
  · rw [htrace]
    simp only [List.append_assoc, List.cons_append, List.nil_append]
    rfl
  · intro hmem
    simp only [List.mem_append, List.mem_cons, List.not_mem_nil, or_false, Op.writel.injEq,
      reduceCtorEq, ALTERA_SGDMA_CONTROL_SOFTWARERESET_MSK, ALTERA_SGDMA_CONTROL,
      ALTERA_SGDMA_STATUS, ALTERA_SGDMA_NEXT_DESC_POINTER] at hmem
    rcases hmem with (h | h | h | h) | h
    · exact absurd h.1 (by decide)
    · exact absurd h.1 (by decide)
    · exact absurd h.1 (by decide)
    · have := h.2
      simp only [ULONG_MOD] at this
      omega
    · exact writel_not_mem_loop_ops _ _ _ _ h
  · intro idx f v hmem
    rw [htrace] at hmem
    simp only [List.mem_append, List.mem_cons, List.not_mem_nil, or_false, reduceCtorEq,
      false_or] at hmem ⊢
    rcases hmem with h | h | h | h
    · exact Or.inl h
    · exact Or.inr (Or.inl h)
    · exact Or.inr (Or.inr (Or.inl h))
    · exact Or.inr (Or.inr (Or.inr h))
  · simp
  · simp
  · simp
  · simp [ALTERA_SGDMA_NEXT_DESC_POINTER]
  · rw [hrep, htrace]
    have hlast : ∀ (t : List Op) (a b c d : Op) (value addr : Nat),
        d = Op.writel value addr →
        replay (t ++ [a, b, c, d]) mem = replay (t ++ [a, b, c]) mem := by
      intro t a b c d value addr hd
      subst hd
      simp only [replay, List.foldl_append, List.foldl_cons, List.foldl_nil, replay_op]
    exact (hlast _ _ _ _ _ _ _ rfl).symm

/-- Every store of `altfb_dma_start` on a buffer that is not empty goes to a
descriptor of the table it builds. -/
theorem altfb_dma_start_store_idx (base start L : Nat) (mem : Int → sgdma_desc) (hL : 1 ≤ L)
    (idx : Int) (f : Field) (v : Nat)
    (h : Op.store idx f v ∈ (altfb_dma_start base start L ⟨mem, []⟩).2.trace) :
    0 ≤ idx ∧ idx < (ceil_div L DISPLAY_BYTES_PER_DESC : Int) := by
  have hn : 1 ≤ ceil_div L DISPLAY_BYTES_PER_DESC := by
    simp only [ceil_div, DISPLAY_BYTES_PER_DESC]
    omega
  rw [altfb_dma_start_trace] at h
  have hloop := mem_loop_ops (loop_entry base start L ⟨mem, []⟩)
    (List.range (ceil_div L DISPLAY_BYTES_PER_DESC)) idx
  have hd : (loop_entry base start L ⟨mem, []⟩).desc = 0 := rfl
  rw [hd] at hloop
  simp only [List.mem_append, List.mem_cons, List.mem_singleton, Op.store.injEq,
    List.not_mem_nil, or_false, false_or, reduceCtorEq] at h
  rcases h with h | h | h | h
  · obtain ⟨i, hi, hidx⟩ := hloop.mp ⟨f, v, h⟩
    rw [List.mem_range] at hi
    omega
  · omega
  · omega
  · omega

/-- Every field lies inside the 32 bytes of its record. -/
theorem field_extent (f : Field) : f.offset + f.size ≤ 32 := by
  cases f <;> decide

/-- The entry C19: for every buffer length `L` with `1 ≤ L` and
`L + 0xFEFF < 2^32`, every descriptor store of `altfb_dma_start` goes to a
table index `idx` with `0 ≤ idx < DISPLAY_DESC_COUNT(L)`. The bytes it writes,
counted from the start of the table, lie in `[0, DISPLAY_DESC_SIZE(L))`, where
`DISPLAY_DESC_SIZE(L)` is `DISPLAY_DESC_COUNT(L) * 32` without wrap; counted
from the start of the surface, where the table follows the `L` bytes of
pixels, they lie in `[L, L + DISPLAY_DESC_SIZE(L))`, so no byte of the pixel
sub-region is written, and this range is inside the
`(L + DISPLAY_DESC_SIZE(L)) mod 2^32` bytes that `altfb_probe` requests
whenever that sum does not wrap. -/
theorem altfb_dma_start_stores_in_table (base start L : Nat) (mem : Int → sgdma_desc)
    (hL : 1 ≤ L) (hfit : L + 0xFEFF < ULONG_MOD) :
    DISPLAY_DESC_SIZE L = DISPLAY_DESC_COUNT L * 32 ∧
    ∀ idx f v, Op.store idx f v ∈ (altfb_dma_start base start L ⟨mem, []⟩).2.trace →
      0 ≤ idx ∧ idx < (DISPLAY_DESC_COUNT L : Int) ∧
      0 ≤ idx * 32 + (f.offset : Int) ∧
      idx * 32 + (f.offset : Int) + (f.size : Int) ≤ (DISPLAY_DESC_SIZE L : Int) ∧
      (L : Int) ≤ (L : Int) + (idx * 32 + (f.offset : Int)) ∧
      (L + DISPLAY_DESC_SIZE L < ULONG_MOD →
        (L : Int) + (idx * 32 + (f.offset : Int) + (f.size : Int))
          ≤ (((L + DISPLAY_DESC_SIZE L) % ULONG_MOD : Nat) : Int)) := by
  have hcount : DISPLAY_DESC_COUNT L = ceil_div L DISPLAY_BYTES_PER_DESC := by
    simp only [DISPLAY_DESC_COUNT, ceil_div, DISPLAY_BYTES_PER_DESC, ULONG_MOD] at hfit ⊢
    rw [Nat.mod_eq_of_lt (by omega)]
  have hn : ceil_div L DISPLAY_BYTES_PER_DESC < 131072 :=
    ceil_div_lt L (by simp only [ULONG_MOD] at hfit ⊢; omega)
  have hsize : DISPLAY_DESC_SIZE L = DISPLAY_DESC_COUNT L * 32 := by
    rw [DISPLAY_DESC_SIZE, sizeof_sgdma_desc_eq, hcount]
    apply Nat.mod_eq_of_lt
    simp only [ULONG_MOD]
    omega
  refine ⟨hsize, ?_⟩
  intro idx f v hmem
  obtain ⟨h0, h1⟩ := altfb_dma_start_store_idx base start L mem hL idx f v hmem
  have hext := field_extent f
  rw [hsize, hcount]
  refine ⟨h0, h1, by omega, by push_cast; omega, by omega, ?_⟩
  intro hsum
  rw [Nat.mod_eq_of_lt hsum]
  push_cast
  omega

/-- The entry C19 at the 640x480, 16 bpp buffer: the table has ten records,
320 bytes, and the ring-closing store to `next` of descriptor 9 writes the
bytes 304 to 307 of the table. -/
theorem altfb_dma_start_stores_in_table_witness :
    DISPLAY_DESC_COUNT 614400 = 10 ∧ DISPLAY_DESC_SIZE 614400 = 320 ∧
    Op.store 9 Field.next 0x196000
      ∈ (altfb_dma_start 0x4000 0x100000 614400 ⟨fun _ => sgdma_desc.zero, []⟩).2.trace ∧
    (9 : Int) * 32 + (Field.next.offset : Int) + (Field.next.size : Int)
      ≤ (DISPLAY_DESC_SIZE 614400 : Int) := by
  have hmem : Op.store 9 Field.next 0x196000
      ∈ (altfb_dma_start 0x4000 0x100000 614400 ⟨fun _ => sgdma_desc.zero, []⟩).2.trace := by
    rw [altfb_dma_start_trace]
    have hc : ceil_div 614400 DISPLAY_BYTES_PER_DESC = 10 := by decide
    rw [hc]
    simp only [List.mem_append, List.mem_cons]
    refine Or.inr (Or.inl ?_)
    decide
  have h := altfb_dma_start_stores_in_table 0x4000 0x100000 614400
    (fun _ => sgdma_desc.zero) (by decide) (by decide)
  exact ⟨by decide, by decide, hmem, (h.2 9 Field.next 0x196000 hmem).2.2.2.1⟩

/-! ## Properties of `altfb_setcolreg` -/

/-- Three fields packed with shifts and ors are the sum of the shifted
fields when each of the lower two fits its width. -/
theorem pack_three (a b c p q : Nat) (hb : b < 2 ^ p) (hc : c < 2 ^ q) :
    (a <<< (p + q)) ||| (b <<< q) ||| c = a * 2 ^ (p + q) + b * 2 ^ q + c := by
  have hbq : 2 ^ q * b < 2 ^ (p + q) := by
    rw [pow_add, Nat.mul_comm (2 ^ p)]
    exact Nat.mul_lt_mul_of_pos_left hb (Nat.two_pow_pos q)
  have h1 : (a <<< (p + q)) ||| (b <<< q) = 2 ^ q * (2 ^ p * a + b) := by
    rw [Nat.shiftLeft_eq, Nat.shiftLeft_eq, Nat.mul_comm a, Nat.mul_comm b,
      ← Nat.mul_add_lt_is_or hbq a, pow_add]
    ring
  rw [h1, ← Nat.mul_add_lt_is_or hc, pow_add]
  ring

/-- The word stored for a 16 bpp surface. -/
theorem altfb_setcolreg_word_16 (regno red green blue transp : Nat) (pal : Nat → Nat)
    (h : regno < 255) :
    (altfb_setcolreg regno red green blue transp 16 pal).2 regno
      = (red / 2048 % 32) * 2048 + (green / 1024 % 64) * 32 + blue / 2048 % 32 := by
  have e31 : (31 : Nat) = 2 ^ 5 - 1 := by norm_num
  have e63 : (63 : Nat) = 2 ^ 6 - 1 := by norm_num
  have hp := pack_three (red / 2048 % 32) (green / 1024 % 64) (blue / 2048 % 32) 6 5
    (Nat.mod_lt _ (by norm_num)) (Nat.mod_lt _ (by norm_num))
  simp only [altfb_setcolreg, if_neg (show ¬ regno > 255 by omega), if_pos h, if_true]
  rw [e31, e63]
  simp only [Nat.and_pow_two_sub_one_eq_mod, Nat.shiftRight_eq_div_pow]
  norm_num at hp ⊢
  rw [hp]
  simp only [ULONG_MOD]
  omega

/-- The word stored for a surface of any other depth. -/
theorem altfb_setcolreg_word_else (regno red green blue transp bpp : Nat) (pal : Nat → Nat)
    (h : regno < 255) (hbpp : bpp ≠ 16) :
    (altfb_setcolreg regno red green blue transp bpp pal).2 regno
      = (red / 256 % 256) * 65536 + (green / 256 % 256) * 256 + blue / 256 % 256 := by
  have e255 : (255 : Nat) = 2 ^ 8 - 1 := by norm_num
  have hp := pack_three (red / 256 % 256) (green / 256 % 256) (blue / 256 % 256) 8 8
    (Nat.mod_lt _ (by norm_num)) (Nat.mod_lt _ (by norm_num))
  simp only [altfb_setcolreg, if_neg (show ¬ regno > 255 by omega), if_pos h, if_neg hbpp,
    if_true]
  rw [e255]
  simp only [Nat.and_pow_two_sub_one_eq_mod, Nat.shiftRight_eq_div_pow]
  norm_num at hp ⊢
  rw [hp]
  simp only [ULONG_MOD]
  omega

/-- The entry C11, at the index 255: `altfb_setcolreg` returns 0 and leaves the
palette as it was, whatever the colour and the depth, because it stores only
when `regno < 255`. With the colour white on a 16 bpp surface and a palette
of zeros, entry 254 receives `0xFFFF` but entry 255 stays 0. -/
theorem altfb_setcolreg_drops_255 (red green blue transp bpp : Nat) (pal : Nat → Nat) :
    (altfb_setcolreg 255 red green blue transp bpp pal).1 = 0 ∧
    (altfb_setcolreg 255 red green blue transp bpp pal).2 = pal ∧
    (altfb_setcolreg 254 0xFFFF 0xFFFF 0xFFFF 0 16 (fun _ => 0)).2 254 = 0xFFFF ∧
    (altfb_setcolreg 255 0xFFFF 0xFFFF 0xFFFF 0 16 (fun _ => 0)).2 255 = 0 := by
  refine ⟨?_, ?_, ?_, ?_⟩
  · simp only [altfb_setcolreg]
    split_ifs <;> first | rfl | omega
  · simp only [altfb_setcolreg]
    split_ifs <;> rfl
  · rw [altfb_setcolreg_word_16 _ _ _ _ _ _ (by decide)]
  · simp only [altfb_setcolreg]
    split_ifs <;> rfl

/-- The entry C12: `altfb_setcolreg` returns a non-zero value exactly when
`regno > 255`; when it returns non-zero the palette is unchanged; and on every
call the palette entries other than entry `regno` are unchanged. -/
theorem altfb_setcolreg_return_and_frame (regno red green blue transp bpp : Nat)
    (pal : Nat → Nat) :
    ((altfb_setcolreg regno red green blue transp bpp pal).1 ≠ 0 ↔ regno > 255) ∧
    ((altfb_setcolreg regno red green blue transp bpp pal).1 ≠ 0 →
      (altfb_setcolreg regno red green blue transp bpp pal).2 = pal) ∧
    (∀ j, j ≠ regno → (altfb_setcolreg regno red green blue transp bpp pal).2 j = pal j) := by
  by_cases hr : regno > 255
  · simp [altfb_setcolreg, hr]
  · by_cases h16 : bpp = 16 <;> by_cases hlt : regno < 255 <;>
      simp [altfb_setcolreg, hr, h16, hlt] <;> intro j hj <;> simp [hj]

/-- The entry C12 at the index 256 and at the index 7 of a palette of zeros on
a 32 bpp surface: the first call returns 1 and changes nothing, the second
returns 0 and leaves entry 8 alone. -/
theorem altfb_setcolreg_return_and_frame_witness :
    (altfb_setcolreg 256 0xFFFF 0 0 0 32 (fun _ => 0)).1 ≠ 0 ∧
    (altfb_setcolreg 256 0xFFFF 0 0 0 32 (fun _ => 0)).2 = (fun _ => 0) ∧
    ¬ (altfb_setcolreg 7 0xFFFF 0 0 0 32 (fun _ => 0)).1 ≠ 0 ∧
    (altfb_setcolreg 7 0xFFFF 0 0 0 32 (fun _ => 0)).2 8 = 0 := by
  have h256 := altfb_setcolreg_return_and_frame 256 0xFFFF 0 0 0 32 (fun _ => 0)
  have h7 := altfb_setcolreg_return_and_frame 7 0xFFFF 0 0 0 32 (fun _ => 0)
  refine ⟨h256.1.mpr (by decide), h256.2.1 (h256.1.mpr (by decide)), ?_, h7.2.2 8 (by decide)⟩
  intro hne
  exact absurd (h7.1.mp hne) (by decide)

/-- The entry C14: when `altfb_probe` resolves a requested depth of 16, 24 or
32, the record `info` declares red/green/blue at (offset 11, length 5),
(5, 6), (0, 5) for 16 bpp and at (16, 8), (8, 8), (0, 8) for 24 and 32 bpp
(effective depth 32); and for every `regno < 255` and all 16-bit magnitudes
`red`, `green`, `blue`, the word `altfb_setcolreg` stores for the resolved
depth holds in the bit field of each channel the top `length` bits of the
magnitude of that channel, and is the sum of these three fields in place, so
every other bit is zero. -/
theorem altfb_setcolreg_matches_layout (env : Env) (res : resource) (w h b : Nat)
    (hres : env.res = some res) (hok : env.info_ok = true)
    (hw : env.width = some w) (hh : env.height = some h) (hb : env.bpp = some b)
    (hsup : b = 16 ∨ b = 24 ∨ b = 32) :
    ∃ info, (altfb_probe env).info = some info ∧
      info.var.bits_per_pixel = (if b = 24 then 32 else b) ∧
      info.var.red = (if b = 16 then ⟨11, 5, 0⟩ else ⟨16, 8, 0⟩) ∧
      info.var.green = (if b = 16 then ⟨5, 6, 0⟩ else ⟨8, 8, 0⟩) ∧
      info.var.blue = (if b = 16 then ⟨0, 5, 0⟩ else ⟨0, 8, 0⟩) ∧
      ∀ regno red green blue transp pal,
        regno < 255 → red < 2 ^ 16 → green < 2 ^ 16 → blue < 2 ^ 16 →
        bitfield_value
            ((altfb_setcolreg regno red green blue transp info.var.bits_per_pixel pal).2 regno)
            info.var.red = top_bits red info.var.red.length ∧
        bitfield_value
            ((altfb_setcolreg regno red green blue transp info.var.bits_per_pixel pal).2 regno)
            info.var.green = top_bits green info.var.green.length ∧
        bitfield_value
            ((altfb_setcolreg regno red green blue transp info.var.bits_per_pixel pal).2 regno)
            info.var.blue = top_bits blue info.var.blue.length ∧
        (altfb_setcolreg regno red green blue transp info.var.bits_per_pixel pal).2 regno
          = top_bits red info.var.red.length * 2 ^ info.var.red.offset
            + top_bits green info.var.green.length * 2 ^ info.var.green.offset
            + top_bits blue info.var.blue.length * 2 ^ info.var.blue.offset := by
  have hunf : ∃ info0 ev, altfb_probe env = probe_attach env res info0 ev ∧
      info0.var.bits_per_pixel = (if b = 24 then 32 else b) ∧
      info0.var.red = (if b = 16 then ⟨11, 5, 0⟩ else ⟨16, 8, 0⟩) ∧
      info0.var.green = (if b = 16 then ⟨5, 6, 0⟩ else ⟨8, 8, 0⟩) ∧
      info0.var.blue = (if b = 16 then ⟨0, 5, 0⟩ else ⟨0, 8, 0⟩) := by
    unfold altfb_probe
    simp only [hres, hok, hw, hh, hb, Bool.true_eq_false, if_false]
    rcases hsup with rfl | rfl | rfl <;>
      exact ⟨_, _, rfl, by simp [probe_set_layout, ULONG_MOD],
        by simp [probe_set_layout, ULONG_MOD], by simp [probe_set_layout, ULONG_MOD],
        by simp [probe_set_layout, ULONG_MOD]⟩
  obtain ⟨info0, ev, heq, h0, hr0, hg0, hb0⟩ := hunf
  obtain ⟨info, h1, h2, -, -⟩ := probe_attach_info env res info0 ev
  rw [← heq] at h1
  rw [← h2] at h0 hr0 hg0 hb0
  refine ⟨info, h1, h0, hr0, hg0, hb0, ?_⟩
  intro regno red green blue transp pal hregno hred hgreen hblue
  rw [h0, hr0, hg0, hb0]
  rcases hsup with rfl | rfl | rfl
  · rw [if_neg (by decide), if_pos rfl, if_pos rfl, if_pos rfl,
      altfb_setcolreg_word_16 regno red green blue transp pal hregno]
    simp only [bitfield_value, top_bits, Nat.shiftRight_eq_div_pow]
    norm_num
    omega
  · rw [if_pos rfl, if_neg (by decide), if_neg (by decide), if_neg (by decide),
      altfb_setcolreg_word_else regno red green blue transp 32 pal hregno (by decide)]
    simp only [bitfield_value, top_bits, Nat.shiftRight_eq_div_pow]
    norm_num
    omega
  · rw [if_neg (by decide), if_neg (by decide), if_neg (by decide), if_neg (by decide),
      altfb_setcolreg_word_else regno red green blue transp 32 pal hregno (by decide)]
    simp only [bitfield_value, top_bits, Nat.shiftRight_eq_div_pow]
    norm_num
    omega

/-- The entry C14 at 640x480 and 16 bpp: the red channel is declared at
(offset 11, length 5), and the word stored for the magnitudes
`0xFFFF`, `0x8000`, `0x0000` at index 3 is `0xFC00`, whose red field holds
`0x1F`, the top five bits of `0xFFFF`. -/
theorem altfb_setcolreg_matches_layout_witness :
    ∃ info, (altfb_probe (env_ok 640 480 16)).info = some info ∧
      info.var.red = ⟨11, 5, 0⟩ ∧
      bitfield_value
          ((altfb_setcolreg 3 0xFFFF 0x8000 0 0 info.var.bits_per_pixel (fun _ => 0)).2 3)
          info.var.red = 0x1F ∧
      (altfb_setcolreg 3 0xFFFF 0x8000 0 0 info.var.bits_per_pixel (fun _ => 0)).2 3
        = 0xFC00 := by
  obtain ⟨info, h1, h2, h3, h4, h5, h6⟩ :=
    altfb_setcolreg_matches_layout (env_ok 640 480 16) ⟨0x4000, 0x400⟩ 640 480 16
      rfl rfl rfl rfl rfl (Or.inl rfl)
  obtain ⟨a1, -, -, a4⟩ := h6 3 0xFFFF 0x8000 0 0 (fun _ => 0) (by decide) (by decide)
    (by decide) (by decide)
  rw [if_pos rfl] at h3 h4 h5
  rw [h3] at a1
  rw [h3, h4, h5] at a4
  refine ⟨info, h1, h3, ?_, ?_⟩
  · rw [h3, a1]
    decide
  · rw [a4]
    decide

/-! ## The layout of the surface -/

/-- The pointer `desc_virt` of a probe on which every call succeeds. -/
theorem probe_attach_desc_virt (env : Env) (res : resource) (info : fb_info) (ev : List Event)
    (v p base : Nat) (hd : env.dma_alloc = some (v, p)) (hc : 0 ≤ env.cmap_ret)
    (hr : env.region_ok = true) (hs : env.sgdma_base = some base)
    (hreg : 0 ≤ env.register_ret) :
    (probe_attach env res info ev).desc_virt = some ((v + info.fix.smem_len) % ULONG_MOD) := by
  unfold probe_attach
  simp only [hd, hr, hs, Bool.true_eq_false, if_false, altfb_dma_start_retval, ne_eq,
    not_true_eq_false, if_neg (not_lt.mpr hc), if_neg (not_lt.mpr hreg)]

/-- No operation of `altfb_dma_start` is an allocation request. -/
theorem filter_alloc_map_dma (t : List Op) :
    (t.map Event.dma).filter Event.is_surface_alloc = [] := by
  induction t with
  | nil => rfl
  | cons a t ih =>
    rw [List.map_cons, List.filter_cons_of_neg (by simp [Event.is_surface_alloc]), ih]

/-- Up to the geometry stage the probe requests no allocation of the
surface. -/
theorem altfb_probe_resolved_no_alloc (env : Env) (res : resource) (w h b : Nat)
    (hres : env.res = some res) (hok : env.info_ok = true)
    (hw : env.width = some w) (hh : env.height = some h) (hb : env.bpp = some b) :
    ∃ info ev, altfb_probe env = probe_attach env res info ev ∧
      ev.filter Event.is_surface_alloc = [] := by
  unfold altfb_probe
  simp only [hres, hok, hw, hh, hb, Bool.true_eq_false, if_false]
  refine ⟨_, _, rfl, ?_⟩
  by_cases h24 : b % ULONG_MOD = 24 <;> simp [h24, Event.is_surface_alloc]

/-- The entry C13: on a probe on which every call succeeds there is one
request for the surface, of `smem_len + DISPLAY_DESC_COUNT(smem_len) *
sizeof(struct sgdma_desc)` bytes (in `unsigned long` arithmetic, and equal to
that number whenever it fits); the pixel storage is at the virtual address
`fbmem_virt` and the physical address `smem_start` that the allocation
returned, and the table begins right after its `smem_len` bytes: `desc_virt`
is `fbmem_virt + smem_len`, and the physical address `smem_start + smem_len`
is both written to Next-Descriptor-Pointer and stored in `next` of the last
descriptor to close the ring. -/
theorem altfb_probe_surface_layout (env : Env) (res : resource) (w h b v p base : Nat)
    (hres : env.res = some res) (hok : env.info_ok = true)
    (hw : env.width = some w) (hh : env.height = some h) (hb : env.bpp = some b)
    (hd : env.dma_alloc = some (v, p)) (hc : 0 ≤ env.cmap_ret)
    (hr : env.region_ok = true) (hs : env.sgdma_base = some base)
    (hreg : 0 ≤ env.register_ret) :
    ∃ info, (altfb_probe env).info = some info ∧
      (altfb_probe env).events.filter Event.is_surface_alloc
        = [Event.dma_alloc_coherent
            ((info.fix.smem_len
              + (DISPLAY_DESC_COUNT info.fix.smem_len * sizeof_sgdma_desc) % ULONG_MOD)
              % ULONG_MOD)] ∧
      (info.fix.smem_len + DISPLAY_DESC_COUNT info.fix.smem_len * sizeof_sgdma_desc < ULONG_MOD →
        (altfb_probe env).events.filter Event.is_surface_alloc
          = [Event.dma_alloc_coherent
              (info.fix.smem_len + DISPLAY_DESC_COUNT info.fix.smem_len * sizeof_sgdma_desc)]) ∧
      info.screen_base = some v ∧
      info.fix.smem_start = p % ULONG_MOD ∧
      (altfb_probe env).desc_virt = some ((v + info.fix.smem_len) % ULONG_MOD) ∧
      Op.writel ((info.fix.smem_start + info.fix.smem_len) % ULONG_MOD)
          ((base + 0x20) % ULONG_MOD) ∈ probe_ops (altfb_probe env).events ∧
      Op.store ((ceil_div info.fix.smem_len DISPLAY_BYTES_PER_DESC : Int) - 1) .next
          ((info.fix.smem_start + info.fix.smem_len) % ULONG_MOD)
        ∈ probe_ops (altfb_probe env).events := by
  obtain ⟨info0, ev, heq, hev⟩ := altfb_probe_resolved_no_alloc env res w h b hres hok hw hh hb
  obtain ⟨-, a2, a3⟩ := probe_attach_success env res info0 ev v p base hd hc hr hs hreg
  have a4 := probe_attach_desc_virt env res info0 ev v p base hd hc hr hs hreg
  obtain ⟨-, info, b1, -, -, -, b5, -, -, b8⟩ :=
    altfb_probe_success env res w h b v p base hres hok hw hh hb hd hc hr hs hreg
  rw [heq, a3] at b1
  have hinfo := (Option.some.inj b1).symm
  have hlen : info.fix.smem_len = info0.fix.smem_len := by rw [hinfo]
  have hbase : info.screen_base = some v := by rw [hinfo]
  have hfilter : (altfb_probe env).events.filter Event.is_surface_alloc
      = [Event.dma_alloc_coherent
          ((info.fix.smem_len
            + (DISPLAY_DESC_COUNT info.fix.smem_len * sizeof_sgdma_desc) % ULONG_MOD)
            % ULONG_MOD)] := by
    rw [heq, a2, hlen]
    simp only [List.filter_append, hev, filter_alloc_map_dma, List.nil_append,
      List.append_nil]
    rfl
  refine ⟨info, by rw [heq, a3, hinfo], hfilter, ?_, hbase, b5, by rw [heq, a4, hlen], ?_, ?_⟩
  · intro hfit
    rw [hfilter, Nat.mod_eq_of_lt (a := DISPLAY_DESC_COUNT info.fix.smem_len * sizeof_sgdma_desc)
      (by omega), Nat.mod_eq_of_lt hfit]
  · rw [b8, altfb_dma_start_trace]
    simp [ALTERA_SGDMA_NEXT_DESC_POINTER]
  · rw [b8, altfb_dma_start_trace]
    simp

/-- The entry C13 at 640x480 and 16 bpp with the surface at virtual address
`0xC0100000` and physical address `0x100000`: one request of 614720 bytes,
the table at virtual address `0xC0196000`, and `0x196000` written to
Next-Descriptor-Pointer. -/
theorem altfb_probe_surface_layout_witness :
    (altfb_probe (env_ok 640 480 16)).events.filter Event.is_surface_alloc
      = [Event.dma_alloc_coherent 614720] ∧
    (altfb_probe (env_ok 640 480 16)).desc_virt = some 0xC0196000 ∧
    Op.writel 0x196000 0x80004020 ∈ probe_ops (altfb_probe (env_ok 640 480 16)).events := by
  obtain ⟨info, h1, h2, -, -, h5, h6, h7, -⟩ :=
    altfb_probe_surface_layout (env_ok 640 480 16) ⟨0x4000, 0x400⟩ 640 480 16
      0xC0100000 0x100000 0x80004000 rfl rfl rfl rfl rfl rfl (by decide) rfl rfl (by decide)
  obtain ⟨-, info', c1, -, c3, c4, -, -, -, -⟩ :=
    altfb_probe_success (env_ok 640 480 16) ⟨0x4000, 0x400⟩ 640 480 16
      0xC0100000 0x100000 0x80004000 rfl rfl rfl rfl rfl rfl (by decide) rfl rfl (by decide)
  rw [h1] at c1
  have hinfo := Option.some.inj c1
  rw [← hinfo] at c3 c4
  have e3 : info.fix.line_length = 1280 := by rw [c3]; decide
  have e4 : info.fix.smem_len = 614400 := by rw [c4, e3]; decide
  have e5 : info.fix.smem_start = 0x100000 := by rw [h5]; decide
  rw [e4] at h2 h6
  rw [e4, e5] at h7
  refine ⟨?_, ?_, ?_⟩
  · rw [h2]
    decide
  · rw [h6]
    decide
  · have e : (0x100000 + 614400) % ULONG_MOD = 0x196000 := by decide
    have e' : (0x80004000 + 0x20) % ULONG_MOD = 0x80004020 := by decide
    rw [e, e'] at h7
    exact h7

/-! ## Properties of `altfb_color_bar` -/

/-- A list made of `n` blocks of `m` elements has `n * m` elements. -/
theorem length_blocks {α : Type} (n m : Nat) (f : Nat → List α)
    (hf : ∀ i, (f i).length = m) : ((List.range n).flatMap f).length = n * m := by
  induction n with
  | zero => simp
  | succ n ih =>
    rw [List.range_succ, List.flatMap_append, List.length_append, ih, List.flatMap_singleton,
      hf]
    ring

/-- The element number `k` of a list made of blocks of `m` elements is
element `k % m` of block `k / m`. -/
theorem getElem?_blocks {α : Type} (n m : Nat) (f : Nat → List α)
    (hf : ∀ i, (f i).length = m) (k : Nat) (hk : k < n * m) :
    ((List.range n).flatMap f)[k]? = (f (k / m))[k % m]? := by
  induction n with
  | zero => simp at hk
  | succ n ih =>
    have hm : 0 < m := by
      rcases Nat.eq_zero_or_pos m with h0 | h0
      · rw [h0] at hk; simp at hk
      · exact h0
    rw [List.range_succ, List.flatMap_append, List.flatMap_singleton, List.getElem?_append,
      length_blocks n m f hf]
    by_cases hlt : k < n * m
    · rw [if_pos hlt, ih hlt]
    · rw [if_neg hlt]
      have hge : n * m ≤ k := Nat.le_of_not_lt hlt
      have hlt' : k < n * m + m := by
        have : (n + 1) * m = n * m + m := by ring
        omega
      have hdiv : k / m = n := by
        apply Nat.div_eq_of_lt_le
        · exact hge
        · exact hk
      have hmod : k % m = k - n * m := by
        have h1 := Nat.div_add_mod k m
        rw [hdiv, Nat.mul_comm] at h1
        omega
      rw [hdiv, hmod]

/-- The function `altfb_color_bar` performs `yres * (8 * (xres / 8))` stores. -/
theorem altfb_color_bar_length (xres yres bpp : Nat) :
    (altfb_color_bar xres yres bpp).length = yres * (8 * (xres / 8)) := by
  simp only [altfb_color_bar]
  apply length_blocks
  intro _
  apply length_blocks
  intro _
  exact List.length_replicate _ _

/-- Store number `k` of `altfb_color_bar` holds the colour of bar
`(k % (8 * xbar)) / xbar`, where `xbar = xres / 8`. -/
theorem altfb_color_bar_getElem? (xres yres bpp k : Nat)
    (hk : k < yres * (8 * (xres / 8))) :
    (altfb_color_bar xres yres bpp)[k]?
      = some (color_bar_pixel bpp ((k % (8 * (xres / 8))) / (xres / 8))) := by
  have hpos : 0 < 8 * (xres / 8) := by
    rcases Nat.eq_zero_or_pos (8 * (xres / 8)) with h0 | h0
    · rw [h0] at hk; simp at hk
    · exact h0
  have hrow : ∀ _y : Nat, ((List.range 8).flatMap fun i =>
      List.replicate (xres / 8) (color_bar_pixel bpp i)).length = 8 * (xres / 8) := by
    intro _
    apply length_blocks
    intro _
    exact List.length_replicate _ _
  simp only [altfb_color_bar]
  rw [getElem?_blocks yres (8 * (xres / 8)) _ hrow k hk,
    getElem?_blocks 8 (xres / 8) _ (fun _ => List.length_replicate _ _) _
      (Nat.mod_lt _ hpos),
    List.getElem?_replicate, if_pos (Nat.mod_lt _ (by omega))]

/-- The entry C17, at 1366x768 and 16 bpp, a width that is not a multiple of
8: a pass of the loop over `y` stores `8 * (1366 / 8) = 1360` cells and not
1366, so row 1 of the surface starts six cells into the second pass. The
cell at column 169 is white (bar 0, `0xCB39`) in row 0 and amber (bar 1,
`0xD340`) in row 1, although `169 / (1366 / 8)` is bar 0. -/
theorem altfb_color_bar_skewed_bars :
    8 ≤ 1366 ∧ 169 < 8 * (1366 / 8) ∧ 169 / (1366 / 8) = 0 ∧
    surface_pixel (altfb_color_bar 1366 768 16) 1366 169 0 = some (color_bar_pixel 16 0) ∧
    surface_pixel (altfb_color_bar 1366 768 16) 1366 169 1 = some (color_bar_pixel 16 1) ∧
    color_bar_pixel 16 0 = 0xCB39 ∧ color_bar_pixel 16 1 = 0xD340 ∧
    surface_pixel (altfb_color_bar 1366 768 16) 1366 169 0
      ≠ surface_pixel (altfb_color_bar 1366 768 16) 1366 169 1 := by
  have h0 : surface_pixel (altfb_color_bar 1366 768 16) 1366 169 0
      = some (color_bar_pixel 16 0) := by
    rw [surface_pixel, altfb_color_bar_getElem? 1366 768 16 _ (by decide)]
  have h1 : surface_pixel (altfb_color_bar 1366 768 16) 1366 169 1
      = some (color_bar_pixel 16 1) := by
    rw [surface_pixel, altfb_color_bar_getElem? 1366 768 16 _ (by decide)]
  have p0 : color_bar_pixel 16 0 = 0xCB39 := by decide
  have p1 : color_bar_pixel 16 1 = 0xD340 := by decide
  refine ⟨by decide, by decide, by decide, h0, h1, p0, p1, ?_⟩
  rw [h0, h1, p0, p1]
  decide

/-- A probe on which every call succeeds calls `altfb_color_bar` on the
resolved geometry. -/
theorem altfb_probe_color_bar_call (env : Env) (res : resource) (w h b v p base : Nat)
    (hres : env.res = some res) (hok : env.info_ok = true)
    (hw : env.width = some w) (hh : env.height = some h) (hb : env.bpp = some b)
    (hd : env.dma_alloc = some (v, p)) (hc : 0 ≤ env.cmap_ret)
    (hr : env.region_ok = true) (hs : env.sgdma_base = some base)
    (hreg : 0 ≤ env.register_ret) :
    Event.altfb_color_bar (w % ULONG_MOD) (h % ULONG_MOD)
        (if b % ULONG_MOD = 24 then 32 else b % ULONG_MOD)
      ∈ (altfb_probe env).events := by
  obtain ⟨info, ev, heq, h1, h2, h3, -⟩ :=
    altfb_probe_resolved env res w h b hres hok hw hh hb
  obtain ⟨-, a2, -⟩ := probe_attach_success env res info ev v p base hd hc hr hs hreg
  rw [heq, a2, h1, h2, h3]
  simp

/-- The entry C20, at 640x480 and 8 bpp with every call succeeding: the probe
resolves `bits_per_pixel = 8`, `line_length = 640` and `smem_len = 307200`,
requests a surface of 307360 bytes, and calls `altfb_color_bar`, which for a
depth other than 16 stores through the `unsigned` pointer: 307200 stores of 4
bytes, 1228800 bytes from `screen_base` on. That is more than `smem_len`, and
more than the whole allocation, so the stores run over the descriptor table
and past the end of the surface. -/
theorem altfb_color_bar_overruns_8bpp :
    (altfb_probe (env_ok 640 480 8)).retval = 0 ∧
    (∃ info, (altfb_probe (env_ok 640 480 8)).info = some info ∧
      info.var.bits_per_pixel = 8 ∧ info.fix.line_length = 640 ∧
      info.fix.smem_len = 307200) ∧
    Event.dma_alloc_coherent 307360 ∈ (altfb_probe (env_ok 640 480 8)).events ∧
    Event.altfb_color_bar 640 480 8 ∈ (altfb_probe (env_ok 640 480 8)).events ∧
    (altfb_color_bar 640 480 8).length = 307200 ∧
    color_bar_store_bytes 8 = 4 ∧
    307200 < (altfb_color_bar 640 480 8).length * color_bar_store_bytes 8 ∧
    307360 < (altfb_color_bar 640 480 8).length * color_bar_store_bytes 8 := by
  obtain ⟨hret, info, h1, h2, h3, h4, -, -, h7, -⟩ :=
    altfb_probe_success (env_ok 640 480 8) ⟨0x4000, 0x400⟩ 640 480 8
      0xC0100000 0x100000 0x80004000 rfl rfl rfl rfl rfl rfl (by decide) rfl rfl (by decide)
  have hcall := altfb_probe_color_bar_call (env_ok 640 480 8) ⟨0x4000, 0x400⟩ 640 480 8
      0xC0100000 0x100000 0x80004000 rfl rfl rfl rfl rfl rfl (by decide) rfl rfl (by decide)
  have e2 : info.var.bits_per_pixel = 8 := by rw [h2]; decide
  have e3 : info.fix.line_length = 640 := by rw [h3]; decide
  have e4 : info.fix.smem_len = 307200 := by rw [h4, e3]; decide
  rw [e4] at h7
  have hlen : (altfb_color_bar 640 480 8).length = 307200 := by
    rw [altfb_color_bar_length]
  have hsz : (307200 + DISPLAY_DESC_SIZE 307200) % ULONG_MOD = 307360 := by decide
  rw [hsz] at h7
  have hargs : Event.altfb_color_bar (640 % ULONG_MOD) (480 % ULONG_MOD)
      (if 8 % ULONG_MOD = 24 then 32 else 8 % ULONG_MOD) = Event.altfb_color_bar 640 480 8 := by
    decide
  rw [hargs] at hcall
  refine ⟨hret, ⟨info, h1, e2, e3, e4⟩, h7, hcall, hlen, by decide, ?_, ?_⟩
  · rw [hlen]; decide
  · rw [hlen]; decide

end Altfb
